import Mathlib

/-!
Shallow embedding of the account catalogue, slot registry/discovery, and
account scheduler of the `code-rs` core (`core/src/auth_accounts.rs`,
`core/src/account_slots.rs`, `core/src/account_scheduler.rs`).

Modelling conventions:
- `DateTime<Utc>` timestamps are modelled as `Int` (seconds); `Duration::seconds`
  is integer addition.
- `f64` weights are modelled as `ℚ` (the scheduler only adds, multiplies,
  divides, clamps and compares magnitudes that stay far from overflow).
- `HashMap`s are modelled as association lists with first-match lookup;
  insertion updates in place when the key is present and appends otherwise.
  The nondeterministic iteration order of `totals_by_identity` in
  `next_account` is an explicit `identOrder` argument.
- Filesystem state (directory trees, auth.json files) is an explicit input;
  `String::starts_with` is modelled as `List.isPrefixOf` on the character
  data, which coincides with Rust's byte-wise prefix test on ASCII data.
-/

namespace LightCode

/-- `AuthMode` from `code_app_server_protocol`: API-key vs session-token. -/
inductive AuthMode where
  | apiKey
  | chatGPT
  deriving DecidableEq

/-- The slice of `token_data::IdTokenInfo` the catalogue logic reads. -/
structure IdTokenInfo where
  email : Option String
  chatgpt_plan_type : Option String
  deriving DecidableEq

/-- `token_data::TokenData`: a session-token bundle. -/
structure TokenData where
  id_token : IdTokenInfo
  access_token : String
  refresh_token : String
  account_id : Option String
  deriving DecidableEq

/-- `auth_accounts::StoredAccount`. -/
structure StoredAccount where
  id : String
  mode : AuthMode
  label : Option String
  openai_api_key : Option String
  tokens : Option TokenData
  last_refresh : Option Int
  created_at : Option Int
  last_used_at : Option Int
  deriving DecidableEq

/-- `auth_accounts::AccountsFile` (the persisted container). -/
structure AccountsFile where
  version : Nat
  active_account_id : Option String
  accounts : List StoredAccount
  deriving DecidableEq

/-- Rust `char::to_ascii_lowercase`. -/
def asciiLowerChar (c : Char) : Char :=
  if 65 ≤ c.toNat ∧ c.toNat ≤ 90 then Char.ofNat (c.toNat + 32) else c

/-- Rust `str::to_ascii_lowercase`. -/
def asciiLower (s : String) : String :=
  String.mk (s.data.map asciiLowerChar)

/-- Rust `str::trim`, on the character data (Lean's own `String.trim` is not
kernel-reducible; this mirrors its semantics: strip leading and trailing
whitespace). -/
def rust_trim (s : String) : String :=
  String.mk (((s.data.dropWhile Char.isWhitespace).reverse.dropWhile
    Char.isWhitespace).reverse)

/-- `auth_accounts::normalize_email`: trim then ASCII-lowercase. -/
def normalize_email (email : String) : String :=
  asciiLower (rust_trim email)

/-- `auth_accounts::match_chatgpt_account`: both the external account id and
the normalized email must agree, on a ChatGPT-mode record that has tokens. -/
def match_chatgpt_account (existing : StoredAccount) (tokens : TokenData) : Bool :=
  if existing.mode ≠ AuthMode.chatGPT then false
  else
    match existing.tokens with
    | none => false
    | some existingTokens =>
      let accountIdMatches :=
        match existingTokens.account_id, tokens.account_id with
        | some a, some b => a = b
        | _, _ => false
      let emailMatches :=
        match existingTokens.id_token.email, tokens.id_token.email with
        | some a, some b => normalize_email a = normalize_email b
        | _, _ => false
      accountIdMatches && emailMatches

/-- `auth_accounts::match_api_key_account`: byte-exact key equality on an
API-key-mode record. -/
def match_api_key_account (existing : StoredAccount) (api_key : String) : Bool :=
  existing.mode = AuthMode.apiKey &&
    (match existing.openai_api_key with
     | some stored => stored = api_key
     | none => false)

/-- `auth_accounts::touch_account`: stamp `created_at` when unset and
`last_used_at` when `used`. -/
def touch_account (account : StoredAccount) (used : Bool) (now : Int) : StoredAccount :=
  let account :=
    if account.created_at = none then { account with created_at := some now } else account
  if used then { account with last_used_at := some now } else account

/-- The merge step of `auth_accounts::upsert_account`: overwrite label, secret
payloads, refresh and last-used stamps only when the incoming record carries a
value; `id` and `created_at` are untouched. -/
def merge_account (existing incoming : StoredAccount) : StoredAccount :=
  let acc := existing
  let acc := match incoming.label with
    | some l => { acc with label := some l }
    | none => acc
  let acc := match incoming.last_refresh with
    | some r => { acc with last_refresh := some r }
    | none => acc
  let acc := match incoming.tokens with
    | some t => { acc with tokens := some t }
    | none => acc
  let acc := match incoming.openai_api_key with
    | some k => { acc with openai_api_key := some k }
    | none => acc
  match incoming.last_used_at with
  | some u => { acc with last_used_at := some u }
  | none => acc

/-- The match predicate `upsert_account` uses to find `existing_idx`: mode
dispatch, with a missing payload on the incoming record meaning no match. -/
def upsert_match_pred (newAccount : StoredAccount) (acc : StoredAccount) : Bool :=
  match newAccount.mode with
  | AuthMode.chatGPT =>
    match newAccount.tokens with
    | some t => match_chatgpt_account acc t
    | none => false
  | AuthMode.apiKey =>
    match newAccount.openai_api_key with
    | some k => match_api_key_account acc k
    | none => false

/-- Replace the first account matching `pred` by its merge with `incoming`
(the `Some(idx)` branch of `upsert_account`, which finds the first matching
position and overwrites it); `none` when nothing matches. -/
def upsert_into (pred : StoredAccount → Bool) (incoming : StoredAccount) :
    List StoredAccount → Option (List StoredAccount × StoredAccount)
  | [] => none
  | acc :: rest =>
    if pred acc then
      let merged := merge_account acc incoming
      some (merged :: rest, merged)
    else
      (upsert_into pred incoming rest).map (fun p => (acc :: p.1, p.2))

/-- `auth_accounts::upsert_account`: merge into the first matching record, or
append with `created_at = now` when unset. -/
def upsert_account (data : AccountsFile) (newAccount : StoredAccount) (now : Int) :
    AccountsFile × StoredAccount :=
  match upsert_into (upsert_match_pred newAccount) newAccount data.accounts with
  | some (accounts, merged) => ({ data with accounts := accounts }, merged)
  | none =>
    let appended :=
      if newAccount.created_at = none then { newAccount with created_at := some now }
      else newAccount
    ({ data with accounts := data.accounts ++ [appended] }, appended)

/-- Touch the first account carrying `id` (the `iter_mut().find` in the
`make_active` branches of the upsert entry points). -/
def touch_first (id : String) (now : Int) : List StoredAccount → List StoredAccount
  | [] => []
  | acc :: rest =>
    if acc.id = id then touch_account acc true now :: rest
    else acc :: touch_first id now rest

/-- `auth_accounts::upsert_chatgpt_account` (pure core: the file read/write is
the surrounding I/O; `freshId` stands for the `Uuid::new_v4` draw and `now`
for the wall clock). -/
def upsert_chatgpt_account (data : AccountsFile) (tokens : TokenData) (last_refresh : Int)
    (label : Option String) (make_active : Bool) (freshId : String) (now : Int) :
    AccountsFile × StoredAccount :=
  let newAccount : StoredAccount :=
    { id := freshId, mode := AuthMode.chatGPT, label := label, openai_api_key := none,
      tokens := some tokens, last_refresh := some last_refresh, created_at := none,
      last_used_at := none }
  let res := upsert_account data newAccount now
  let data := res.1
  let stored := res.2
  if make_active then
    let accounts := touch_first stored.id now data.accounts
    let stored' := (accounts.find? (fun acc => acc.id = stored.id)).getD stored
    ({ data with active_account_id := some stored.id, accounts := accounts }, stored')
  else (data, stored)

/-- `auth_accounts::upsert_api_key_account` (pure core, as above). -/
def upsert_api_key_account (data : AccountsFile) (api_key : String)
    (label : Option String) (make_active : Bool) (freshId : String) (now : Int) :
    AccountsFile × StoredAccount :=
  let newAccount : StoredAccount :=
    { id := freshId, mode := AuthMode.apiKey, label := label,
      openai_api_key := some api_key, tokens := none, last_refresh := none,
      created_at := none, last_used_at := none }
  let res := upsert_account data newAccount now
  let data := res.1
  let stored := res.2
  if make_active then
    let accounts := touch_first stored.id now data.accounts
    let stored' := (accounts.find? (fun acc => acc.id = stored.id)).getD stored
    ({ data with active_account_id := some stored.id, accounts := accounts }, stored')
  else (data, stored)

/-- The matching condition of the spec, spelled on the token bundles: the
external account identifiers agree and the trimmed, case-insensitive emails
agree. -/
def chatgpt_bundle_match (acc : StoredAccount) (tokens : TokenData) : Prop :=
  ∃ et, acc.tokens = some et ∧
    (∃ a, et.account_id = some a ∧ tokens.account_id = some a) ∧
    (∃ e1 e2, et.id_token.email = some e1 ∧ tokens.id_token.email = some e2 ∧
      normalize_email e1 = normalize_email e2)

/-! ## Scheduler (`account_scheduler.rs`) -/

def DEFAULT_PRIORITY_SCORE : ℚ := 10000
def MIN_TIME_FRACTION : ℚ := 1 / 100
def DEFAULT_COOLDOWN_SECS : Int := 15
def MIN_EFFECTIVE_WEIGHT : ℚ := 1 / 1000
def R_CRITICAL : ℚ := 1 / 4
def R_LOW : ℚ := 1
def R_SURPLUS : ℚ := 3 / 2
def R_CAP : ℚ := 4
def U_MIN : ℚ := 1 / 10
def U_BASE : ℚ := 1
def U_MAX : ℚ := 2

/-- The slice of `protocol::RateLimitSnapshotEvent` that `compute_priority`
reads. -/
structure RateLimitSnapshotEvent where
  secondary_used_percent : ℚ
  secondary_window_minutes : Nat
  deriving DecidableEq

/-- The slice of `account_usage::StoredRateLimitSnapshot` that the scheduler
reads (the full record lives in `account_usage.rs`, outside the catalogue
core; only these fields are consumed by `account_scheduler.rs`). -/
structure StoredRateLimitSnapshot where
  snapshot : Option RateLimitSnapshotEvent
  secondary_next_reset_at : Option Int
  deriving DecidableEq

/-- `account_scheduler::AccountSelection`. -/
structure AccountSelection where
  account_id : String
  label : Option String
  plan : Option String
  snapshot : Option StoredRateLimitSnapshot
  deriving DecidableEq

/-- `account_scheduler::SchedulerOutcome`. -/
inductive SchedulerOutcome where
  | success
  | rateLimited (resume_at : Option Int)
  deriving DecidableEq

/-- `account_scheduler::WeightedState`: one smooth-weighted-round-robin cell. -/
structure WeightedState where
  weight : ℚ
  current : ℚ
  deriving DecidableEq

/-- The in-memory state of `AccountScheduler` (`code_home` elided: it is only
the address of the files read by collaborators, which are explicit inputs
here). Both maps are association lists with unique keys. -/
structure SchedulerState where
  cooldowns : List (String × Int)
  weights : List (String × WeightedState)
  deriving DecidableEq

/-- First-match association-list lookup (a `HashMap` read). -/
def assocFind {α : Type} (l : List (String × α)) (key : String) : Option α :=
  (l.find? (fun p => p.1 = key)).map (fun p => p.2)

/-- `HashMap::insert`: overwrite in place when present, append otherwise. -/
def assocInsert {α : Type} : List (String × α) → String → α → List (String × α)
  | [], key, v => [(key, v)]
  | (k, w) :: rest, key, v =>
    if k = key then (key, v) :: rest else (k, w) :: assocInsert rest key v

/-- `HashMap::remove`. -/
def assocRemove {α : Type} (l : List (String × α)) (key : String) : List (String × α) :=
  l.filter (fun p => p.1 ≠ key)

/-- `prune_expired_cooldowns`: retain entries with `until > now`. -/
def prune_expired_cooldowns (cooldowns : List (String × Int)) (now : Int) :
    List (String × Int) :=
  cooldowns.filter (fun p => now < p.2)

/-- `is_blocked`: a cooldown entry strictly in the future. -/
def is_blocked (cooldowns : List (String × Int)) (account_id : String) (now : Int) : Bool :=
  match assocFind cooldowns account_id with
  | some resume => now < resume
  | none => false

/-- `record_outcome` (the `now` argument stands for the `Utc::now()` call in
the `resume_at.unwrap_or_else` default). -/
def record_outcome (st : SchedulerState) (account_id : String)
    (outcome : SchedulerOutcome) (now : Int) : SchedulerState :=
  match outcome with
  | SchedulerOutcome.success =>
    { st with cooldowns := assocRemove st.cooldowns account_id }
  | SchedulerOutcome.rateLimited resume_at =>
    let resume := resume_at.getD (now + DEFAULT_COOLDOWN_SECS)
    { st with cooldowns := assocInsert st.cooldowns account_id resume }

/-- `has_credentials`. -/
def has_credentials (account : StoredAccount) : Bool :=
  match account.mode with
  | AuthMode.apiKey => account.openai_api_key.isSome
  | AuthMode.chatGPT => account.tokens.isSome

/-- `plan_for_account` (`get_chatgpt_plan_type` is a field read of the decoded
identity token, defined in `token_data.rs`). -/
def plan_for_account (account : StoredAccount) : Option String :=
  account.tokens.bind (fun t => t.id_token.chatgpt_plan_type)

/-- `compute_priority`. -/
def compute_priority (snapshot : StoredRateLimitSnapshot) (now : Int) : Option ℚ :=
  snapshot.snapshot.map (fun event =>
    let totalMinutes : ℚ := (max event.secondary_window_minutes 1 : Nat)
    let totalSeconds : ℚ := totalMinutes * 60
    let remainingPct : ℚ :=
      min (max (100 - event.secondary_used_percent) 0) 100
    let secondsRemaining : ℚ :=
      match snapshot.secondary_next_reset_at with
      | some dt => ((max (dt - now) 0 : Int) : ℚ)
      | none => totalSeconds
    let timeFraction := min (max (secondsRemaining / totalSeconds) MIN_TIME_FRACTION) 1
    remainingPct / timeFraction)

/-- `urgency_multiplier`. -/
def urgency_multiplier (r : ℚ) : ℚ :=
  if r ≤ R_CRITICAL then U_MIN
  else if R_CAP ≤ r then U_MAX
  else if r < R_LOW then U_MIN + (r - R_CRITICAL) / (R_LOW - R_CRITICAL) * (U_BASE - U_MIN)
  else if r < R_SURPLUS then U_BASE
  else U_BASE + (r - R_SURPLUS) / (R_CAP - R_SURPLUS) * (U_MAX - U_BASE)

/-- `health_multiplier`: reserved hook, always 1. -/
def health_multiplier (_snapshot : StoredRateLimitSnapshot) : ℚ := 1

/-- `compute_weight`. -/
def compute_weight (snapshot : StoredRateLimitSnapshot) (now : Int) : ℚ :=
  let r := ((compute_priority snapshot now).getD DEFAULT_PRIORITY_SCORE) / 100
  let urgency := urgency_multiplier r
  let health := health_multiplier snapshot
  max r MIN_EFFECTIVE_WEIGHT * urgency * health

/-- `slot_identity`: slot-derived records collapse on the session-token
account identifier; every other record is its own identity. -/
def slot_identity (account : StoredAccount) : String :=
  if ("slot-".data.isPrefixOf account.id.data) = false then account.id
  else (account.tokens.bind (fun t => t.account_id)).getD account.id

/-- The per-candidate weight used in `next_account`: telemetry-derived when a
snapshot exists, the large default otherwise, floored at the minimum. -/
def slot_weight (snaps : String → Option StoredRateLimitSnapshot) (now : Int)
    (account_id : String) : ℚ :=
  max (((snaps account_id).map (fun s => compute_weight s now)).getD DEFAULT_PRIORITY_SCORE)
    MIN_EFFECTIVE_WEIGHT

/-- `account_scheduler::SlotCandidate`. -/
structure SlotCandidate where
  selection : AccountSelection
  weight : ℚ
  identity : String
  deriving DecidableEq

/-- The eligibility filter of `next_account` step 2: usable credentials and
not in cooldown. -/
def eligible_accounts (cooldowns : List (String × Int)) (now : Int)
    (accounts : List StoredAccount) : List StoredAccount :=
  accounts.filter (fun a => has_credentials a && !(is_blocked cooldowns a.id now))

/-- The candidate rows `next_account` builds for every eligible account. -/
def candidate_slots (cooldowns : List (String × Int)) (now : Int)
    (accounts : List StoredAccount) (snaps : String → Option StoredRateLimitSnapshot) :
    List SlotCandidate :=
  (eligible_accounts cooldowns now accounts).map (fun a =>
    { selection :=
        { account_id := a.id, label := a.label, plan := plan_for_account a,
          snapshot := snaps a.id },
      weight := slot_weight snaps now a.id,
      identity := slot_identity a })

/-- Add a weight into the per-identity totals map. -/
def bump_total : List (String × ℚ) → String → ℚ → List (String × ℚ)
  | [], ident, w => [(ident, w)]
  | (k, v) :: rest, ident, w =>
    if k = ident then (k, v + w) :: rest else (k, v) :: bump_total rest ident w

/-- `totals_by_identity`: sum candidate weights per scheduling identity. -/
def totals_by_identity (slots : List SlotCandidate) : List (String × ℚ) :=
  slots.foldl (fun acc s => bump_total acc s.identity s.weight) []

/-- One iteration of the `for (identity, weight_sum) in totals_by_identity`
loop: refresh the carried weight, add it to `current`, and keep the strictly
highest `current` seen so far. -/
def pick_step (totals : List (String × ℚ)) (acc : List (String × WeightedState) × Option (String × ℚ))
    (ident : String) : List (String × WeightedState) × Option (String × ℚ) :=
  match assocFind totals ident with
  | none => acc
  | some wsum =>
    let st0 := (assocFind acc.1 ident).getD { weight := wsum, current := 0 }
    let st1 : WeightedState := { weight := wsum, current := st0.current + wsum }
    let weights' := assocInsert acc.1 ident st1
    let best' :=
      match acc.2 with
      | none => some (ident, st1.current)
      | some (bi, bc) => if bc < st1.current then some (ident, st1.current) else some (bi, bc)
    (weights', best')

/-- The smooth-weighted-round-robin pick of `next_account` steps 5: walk the
identities in the map's iteration order (`identOrder`), then subtract the
total weight from the winner. -/
def swrr_pick (weights : List (String × WeightedState)) (totals : List (String × ℚ))
    (identOrder : List String) : List (String × WeightedState) × Option String :=
  let acc := identOrder.foldl (pick_step totals) (weights, none)
  match acc.2 with
  | none => (acc.1, none)
  | some (bi, _) =>
    let total : ℚ := (totals.map (fun p => p.2)).sum
    let weights' :=
      match assocFind acc.1 bi with
      | some s => assocInsert acc.1 bi { s with current := s.current - total }
      | none => acc.1
    (weights', some bi)

/-- Rust `Iterator::max_by` with the comparator of `next_account` step 6:
weight first, account id as tiebreak; the last maximum wins. -/
def max_by_candidate (l : List SlotCandidate) : Option SlotCandidate :=
  l.foldl (fun best x =>
    match best with
    | none => some x
    | some b =>
      if x.weight < b.weight ∨ (x.weight = b.weight ∧ x.selection.account_id < b.selection.account_id)
      then some b else some x) none

/-- `next_account` (pure core): `accounts` stands for the
`auth_accounts::list_accounts` read, `snaps` for the rate-limit snapshot map,
and `identOrder` for the iteration order of the `totals_by_identity` hash
map. -/
def next_account (st : SchedulerState) (now : Int) (accounts : List StoredAccount)
    (snaps : String → Option StoredRateLimitSnapshot) (identOrder : List String) :
    SchedulerState × Option AccountSelection :=
  let cooldowns := prune_expired_cooldowns st.cooldowns now
  let slots := candidate_slots cooldowns now accounts snaps
  let totals := totals_by_identity slots
  let weights1 := st.weights.filter (fun p => (totals.map (fun q => q.1)).contains p.1)
  let totalWeight : ℚ := (totals.map (fun p => p.2)).sum
  if totalWeight ≤ 0 then ({ cooldowns := cooldowns, weights := weights1 }, none)
  else
    match swrr_pick weights1 totals identOrder with
    | (weights2, none) => ({ cooldowns := cooldowns, weights := weights2 }, none)
    | (weights2, some best) =>
      let sel := (max_by_candidate (slots.filter (fun s => s.identity = best))).map
        (fun s => s.selection)
      ({ cooldowns := cooldowns, weights := weights2 }, sel)

/-- A run of consecutive `next_account` calls with no intervening outcomes:
one hash-map iteration order per call. -/
def run_picks (now : Int) (accounts : List StoredAccount)
    (snaps : String → Option StoredRateLimitSnapshot) :
    SchedulerState → List (List String) → SchedulerState × List (Option String)
  | st, [] => (st, [])
  | st, o :: rest =>
    let step := next_account st now accounts snaps o
    let tail := run_picks now accounts snaps step.1 rest
    (tail.1, (step.2.map (fun s => s.account_id)) :: tail.2)

/-! ## Slot registry & discovery (`account_slots.rs`)

The filesystem is an explicit input: `FsTree` is a directory (its name, an
optional `auth.json` — `some (some j)` present and parseable, `some none`
present but unreadable, `none` absent — and its child directories). Paths are
component lists; the single scan root is the installation root `code_home`
(the legacy/secondary roots of `slot_roots` resolve through `config.rs` and
the environment, outside this core; they are absent here). -/

def MAX_SLOT_DEPTH : Nat := 2
def DEFAULT_SLOT_ID : String := "slot-default"

/-- `auth::AuthDotJson`. -/
structure AuthDotJson where
  openai_api_key : Option String
  tokens : Option TokenData
  last_refresh : Option Int
  deriving DecidableEq

/-- A directory on disk. -/
inductive FsTree where
  | dir (name : String) (authFile : Option (Option AuthDotJson)) (children : List FsTree)

def FsTree.name : FsTree → String
  | .dir n _ _ => n

def FsTree.authFile : FsTree → Option (Option AuthDotJson)
  | .dir _ a _ => a

def FsTree.children : FsTree → List FsTree
  | .dir _ _ c => c

/-- `account_slots::SlotDir` (its `path` is always the scan root joined with
`components`, so only the components are carried). -/
structure SlotDir where
  id : String
  label : Option String
  auth : Option AuthDotJson
  components : List String
  deriving DecidableEq

/-- `str::join(sep)` (Rust's `Vec<String>::join`). -/
def joinSep (sep : String) : List String → String
  | [] => ""
  | [p] => p
  | p :: rest => p ++ sep ++ joinSep sep rest

/-- `slot_label`. -/
def slot_label (components : List String) : String :=
  if components.isEmpty then "account"
  else "Slot " ++ joinSep " / " components

/-- Rust `char::is_ascii_alphanumeric`: `0-9`, `A-Z`, `a-z`. -/
def isAsciiAlphanumeric (c : Char) : Bool :=
  decide ((48 ≤ c.toNat ∧ c.toNat ≤ 57) ∨ (65 ≤ c.toNat ∧ c.toNat ≤ 90) ∨
    (97 ≤ c.toNat ∧ c.toNat ≤ 122))

/-- The character loop of `sanitize_slot_component`: lowercase alphanumerics,
collapse other runs to single hyphens (`endsDash` tracks
`slug.ends_with('-')`, which is false on the empty slug). -/
def sanitizeChars : List Char → Bool → List Char
  | [], _ => []
  | c :: rest, endsDash =>
    if isAsciiAlphanumeric c then asciiLowerChar c :: sanitizeChars rest false
    else if endsDash then sanitizeChars rest true
    else '-' :: sanitizeChars rest true

/-- `str::trim_matches('-')`. -/
def trimDashes (l : List Char) : List Char :=
  ((l.dropWhile (fun c => c = '-')).reverse.dropWhile (fun c => c = '-')).reverse

/-- `sanitize_slot_component`. -/
def sanitize_slot_component (component : String) : String :=
  String.mk (trimDashes (sanitizeChars component.data false))

/-- `make_slot_id_slug`. -/
def make_slot_id_slug (components : List String) : String :=
  let parts := (components.map sanitize_slot_component).filter (fun c => !c.data.isEmpty)
  let slug := if parts.isEmpty then "slot" else joinSep "-" parts
  "slot-" ++ slug

/-- The bounded search behind `ensure_unique_slot_id`'s suffix loop; the fuel
always exceeds the number of taken candidates, so the fallback is never
reached. -/
def ensure_unique_go (base : String) (seen : List String) : Nat → Nat → String
  | _, 0 => base
  | counter, fuel + 1 =>
    let cand := base ++ "-" ++ toString counter
    if cand ∈ seen then ensure_unique_go base seen (counter + 1) fuel else cand

/-- `ensure_unique_slot_id`: keep `base` when unseen, else append `-2`, `-3`,
… in first-seen order; returns the id and the grown seen set. -/
def ensure_unique_slot_id (base : String) (seen : List String) : String × List String :=
  if base ∈ seen then
    let cand := ensure_unique_go base seen 2 (seen.length + 1)
    (cand, cand :: seen)
  else (base, base :: seen)

/-- The name filter of `scan_slot_root`: case-insensitive "slot" prefix. -/
def startsWithSlot (name : String) : Bool :=
  "slot".data.isPrefixOf (asciiLower name).data

/-- `derive_label_from_auth`: the trimmed token email when non-empty, else the
path-derived label. -/
def derive_label_from_auth (auth_json : AuthDotJson) (components : List String) : String :=
  match auth_json.tokens with
  | some tokens =>
    match tokens.id_token.email with
    | some email =>
      if (rust_trim email).data.isEmpty then slot_label components else rust_trim email
    | none => slot_label components
  | none => slot_label components

mutual

/-- `account_slots::scan_slot_dir`: a directory with a readable `auth.json`
is a leaf slot (and is not descended into); otherwise recurse into every
child directory while the depth counter allows. -/
def scan_slot_dir : FsTree → List String → Nat → List String →
    List String × List SlotDir
  | FsTree.dir _ authFile children, components, depth, seen =>
    if MAX_SLOT_DEPTH < depth then (seen, [])
    else
      match authFile with
      | some (some auth_json) =>
        let res := ensure_unique_slot_id (make_slot_id_slug components) seen
        (res.2,
         [{ id := res.1, label := some (derive_label_from_auth auth_json components),
            auth := some auth_json, components := components }])
      | some none => (seen, [])
      | none =>
        if depth = MAX_SLOT_DEPTH then (seen, [])
        else scan_slot_children children components depth seen

/-- The child loop of `scan_slot_dir`. -/
def scan_slot_children : List FsTree → List String → Nat → List String →
    List String × List SlotDir
  | [], _, _, seen => (seen, [])
  | t :: rest, components, depth, seen =>
    let head := scan_slot_dir t (components ++ [t.name]) (depth + 1) seen
    let tail := scan_slot_children rest components depth head.1
    (tail.1, head.2 ++ tail.2)

end

/-- `account_slots::scan_slot_root`: only slot-prefixed immediate children of
the root enter the scan, at depth counter 0. -/
def scan_slot_root : List FsTree → List String → List String × List SlotDir
  | [], seen => (seen, [])
  | t :: rest, seen =>
    if startsWithSlot t.name then
      let head := scan_slot_dir t [t.name] 0 seen
      let tail := scan_slot_root rest head.1
      (tail.1, head.2 ++ tail.2)
    else scan_slot_root rest seen

/-- `scan_slot_dirs` over the single installation root. -/
def scan_slot_dirs (rootChildren : List FsTree) : List SlotDir :=
  (scan_slot_root rootChildren []).2

/-- The stored form of a registry entry's `path` field (the source stores a
string: an absolute path, the literal ".", or a root-relative path). -/
inductive PathSpec where
  | dot
  | rel (comps : List String)
  | abs (comps : List String)
  deriving DecidableEq

/-- `account_slots::SlotRegistryEntry`. -/
structure SlotRegistryEntry where
  id : String
  label : Option String
  path : Option PathSpec
  deriving DecidableEq

/-- `resolve_entry_path`. -/
def resolve_entry_path (entry : SlotRegistryEntry) (code_home : List String) :
    List String :=
  match entry.path with
  | none => code_home ++ [entry.id]
  | some PathSpec.dot => code_home
  | some (PathSpec.rel comps) => code_home ++ comps
  | some (PathSpec.abs comps) => comps

/-- `relativize_path`. -/
def relativize_path (code_home : List String) (path : List String) : PathSpec :=
  if path = code_home then PathSpec.dot
  else if code_home.isPrefixOf path then PathSpec.rel (path.drop code_home.length)
  else PathSpec.abs path

/-- `account_slots::AccountSlot` (`has_auth_file` is the `auth.json` presence
probe at the resolved path, supplied as `authAt`). -/
structure AccountSlot where
  id : String
  label : Option String
  path : List String
  has_auth_file : Bool
  is_default : Bool
  deriving DecidableEq

/-- `AccountSlot::new`. -/
def AccountSlot.make (authAt : List String → Bool) (id : String) (label : Option String)
    (path : List String) (is_default : Bool) : AccountSlot :=
  { id := id, label := label, path := path, has_auth_file := authAt path,
    is_default := is_default }

/-- One loop iteration of `hydrate_from_filesystem`: skip a discovered
directory when some entry already resolves to its path, or when its id is
already taken; otherwise append it. -/
def hydrate_step (code_home : List String) (acc : List SlotRegistryEntry)
    (slot : SlotDir) : List SlotRegistryEntry :=
  if acc.any (fun entry => resolve_entry_path entry code_home = code_home ++ slot.components)
  then acc
  else if acc.any (fun entry => entry.id = slot.id) then acc
  else acc ++ [{ id := slot.id, label := slot.label,
                 path := some (relativize_path code_home (code_home ++ slot.components)) }]

/-- `hydrate_from_filesystem`: merge newly discovered directories into the
registry, matching by resolved absolute path first and skipping already-known
identifiers. -/
def hydrate_from_filesystem (slots : List SlotRegistryEntry) (code_home : List String)
    (discovered : List SlotDir) : List SlotRegistryEntry :=
  discovered.foldl (hydrate_step code_home) slots

/-- `default_slot`: the synthetic slot bound to the installation root. -/
def default_slot (authAt : List String → Bool) (code_home : List String) : AccountSlot :=
  AccountSlot.make authAt DEFAULT_SLOT_ID (some (slot_label ["default"])) code_home true

/-- Rust `bool` ordering: `false < true`. -/
def bool_lt (x y : Bool) : Bool := !x && y

/-- Rust `str::cmp`'s strict order (UTF-8 byte order coincides with code
point order). -/
def chars_lt : List Char → List Char → Bool
  | [], [] => false
  | [], _ :: _ => true
  | _ :: _, [] => false
  | c :: cs, d :: ds =>
    if c.toNat < d.toNat then true
    else if d.toNat < c.toNat then false
    else chars_lt cs ds

/-- `slot_sort_key`: default first, then lowercased label, then id. -/
def slot_key (slot : AccountSlot) : Bool × List Char × List Char :=
  (decide (slot.id ≠ DEFAULT_SLOT_ID),
   (asciiLower (slot.label.getD slot.id)).data, slot.id.data)

/-- The strict lexicographic order on sort keys (Rust's derived tuple
`Ord`). -/
def key_lt (a b : Bool × List Char × List Char) : Bool :=
  bool_lt a.1 b.1 ||
    (a.1 = b.1 &&
      (chars_lt a.2.1 b.2.1 || (a.2.1 = b.2.1 && chars_lt a.2.2 b.2.2)))

/-- The (total) order `list_slots` sorts by. -/
def slot_le (a b : AccountSlot) : Bool :=
  key_lt (slot_key a) (slot_key b) || decide (slot_key a = slot_key b)

/-- Insertion step of the (stable w.r.t. the claims below) sort mirroring
`slice::sort_by` on `slot_sort_key`. -/
def ordered_insert_slot (s : AccountSlot) : List AccountSlot → List AccountSlot
  | [] => [s]
  | x :: xs => if slot_le s x then s :: x :: xs else x :: ordered_insert_slot s xs

/-- The `slots.sort_by(slot_sort_key cmp)` call of `list_slots`. -/
def sort_slots : List AccountSlot → List AccountSlot
  | [] => []
  | x :: xs => ordered_insert_slot x (sort_slots xs)

/-- `list_slots` (pure core): hydrate the registry from the scan, materialize
its entries, append the synthetic default and sort. Returns the saved
registry and the listing. -/
def list_slots (registry : List SlotRegistryEntry) (code_home : List String)
    (rootChildren : List FsTree) (authAt : List String → Bool) :
    List SlotRegistryEntry × List AccountSlot :=
  let hydrated := hydrate_from_filesystem registry code_home (scan_slot_dirs rootChildren)
  let slots := hydrated.map (fun e =>
    AccountSlot.make authAt e.id e.label (resolve_entry_path e code_home) false)
  (hydrated, sort_slots (slots ++ [default_slot authAt code_home]))

/-- The label cleaning shared by `add_slot` and `rename_slot`: trim, and drop
empty results. -/
def clean_label (label : Option String) : Option String :=
  label.bind (fun value =>
    let trimmed := rust_trim value
    if trimmed.data.isEmpty then none else some trimmed)

/-- `add_slot` (pure core): fresh directory named from the sanitized label
slug (or "custom"), disambiguated against registry and discovered ids. -/
def add_slot (registry : List SlotRegistryEntry) (code_home : List String)
    (rootChildren : List FsTree) (authAt : List String → Bool) (label : Option String) :
    List SlotRegistryEntry × AccountSlot :=
  let existing := registry.map (fun e => e.id) ++ (scan_slot_dirs rootChildren).map (fun s => s.id)
  let cleaned := clean_label label
  let slugComponent :=
    match cleaned.map sanitize_slot_component with
    | some slug => if slug.data.isEmpty then "custom" else slug
    | none => "custom"
  let base := make_slot_id_slug [slugComponent]
  let uniqueId := (ensure_unique_slot_id base existing).1
  let dirPath := code_home ++ [uniqueId]
  (registry ++ [{ id := uniqueId, label := cleaned,
                  path := some (relativize_path code_home dirPath) }],
   AccountSlot.make authAt uniqueId cleaned dirPath false)

/-- `remove_slot` (pure core): refuse the default id; otherwise drop the first
registry entry with the id (directory deletion is a best-effort fs effect). -/
def remove_slot (registry : List SlotRegistryEntry) (code_home : List String)
    (authAt : List String → Bool) (slot_id : String) :
    List SlotRegistryEntry × Option AccountSlot :=
  if slot_id = DEFAULT_SLOT_ID then (registry, none)
  else
    match registry.find? (fun e => e.id = slot_id) with
    | none => (registry, none)
    | some entry =>
      (registry.eraseP (fun e => e.id = slot_id),
       some (AccountSlot.make authAt entry.id entry.label
         (resolve_entry_path entry code_home) false))

/-- Update the first registry entry carrying `slot_id` (`entry_mut`). -/
def update_first_entry (slot_id : String) (f : SlotRegistryEntry → SlotRegistryEntry) :
    List SlotRegistryEntry → List SlotRegistryEntry
  | [] => []
  | e :: rest =>
    if e.id = slot_id then f e :: rest else e :: update_first_entry slot_id f rest

/-- `rename_slot` (pure core): refuse the default id; otherwise replace the
label (cleared when the new value trims to empty). -/
def rename_slot (registry : List SlotRegistryEntry) (code_home : List String)
    (authAt : List String → Bool) (slot_id : String) (new_label : Option String) :
    List SlotRegistryEntry × Option AccountSlot :=
  if slot_id = DEFAULT_SLOT_ID then (registry, none)
  else
    match registry.find? (fun e => e.id = slot_id) with
    | none => (registry, none)
    | some entry =>
      let updated := { entry with label := clean_label new_label }
      (update_first_entry slot_id (fun e => { e with label := clean_label new_label }) registry,
       some (AccountSlot.make authAt updated.id updated.label
         (resolve_entry_path updated code_home) false))

/-! ## Credential-store merge theorems (C1, C5) -/

theorem merge_account_fields (e i : StoredAccount) :
    (merge_account e i).id = e.id ∧
    (merge_account e i).mode = e.mode ∧
    (merge_account e i).created_at = e.created_at ∧
    (merge_account e i).label = i.label.or e.label ∧
    (merge_account e i).tokens = i.tokens.or e.tokens ∧
    (merge_account e i).openai_api_key = i.openai_api_key.or e.openai_api_key ∧
    (merge_account e i).last_refresh = i.last_refresh.or e.last_refresh ∧
    (merge_account e i).last_used_at = i.last_used_at.or e.last_used_at := by
  obtain ⟨iid, imode, ilabel, ikey, itok, ilr, ica, ilu⟩ := i
  unfold merge_account
  cases ilabel <;> cases ilr <;> cases itok <;> cases ikey <;> cases ilu <;>
    exact ⟨rfl, rfl, rfl, rfl, rfl, rfl, rfl, rfl⟩

theorem upsert_into_eq_none_iff (pred : StoredAccount → Bool) (inc : StoredAccount)
    (l : List StoredAccount) :
    upsert_into pred inc l = none ↔ ∀ a ∈ l, pred a = false := by
  induction l with
  | nil => simp [upsert_into]
  | cons a rest ih =>
    by_cases h : pred a = true
    · simp [upsert_into, h]
    · simp only [Bool.not_eq_true] at h
      simp [upsert_into, h, ih, Option.map_eq_none']

theorem upsert_into_of_first_match (pred : StoredAccount → Bool) (inc : StoredAccount)
    (pre post : List StoredAccount) (acc : StoredAccount)
    (hpre : ∀ x ∈ pre, pred x = false) (hacc : pred acc = true) :
    upsert_into pred inc (pre ++ acc :: post) =
      some (pre ++ merge_account acc inc :: post, merge_account acc inc) := by
  induction pre with
  | nil => simp [upsert_into, hacc]
  | cons x rest ih =>
    have hx : pred x = false := hpre x (by simp)
    have hstep : upsert_into pred inc (x :: (rest ++ acc :: post)) =
        (upsert_into pred inc (rest ++ acc :: post)).map (fun p => (x :: p.1, p.2)) := by
      simp [upsert_into, hx]
    rw [List.cons_append, hstep, ih (fun y hy => hpre y (by simp [hy]))]
    rfl

theorem upsert_into_some_spec (pred : StoredAccount → Bool) (inc : StoredAccount)
    (l l' : List StoredAccount) (m : StoredAccount)
    (h : upsert_into pred inc l = some (l', m)) :
    l'.length = l.length ∧ ∃ acc ∈ l, pred acc = true ∧ m = merge_account acc inc := by
  induction l generalizing l' m with
  | nil => simp [upsert_into] at h
  | cons a rest ih =>
    by_cases ha : pred a = true
    · simp only [upsert_into, ha, if_true] at h
      have h' := Option.some.inj h
      have h1 : merge_account a inc :: rest = l' := congrArg Prod.fst h'
      have h2 : merge_account a inc = m := congrArg Prod.snd h'
      refine ⟨by simp [← h1], a, by simp, ha, h2.symm⟩
    · simp only [Bool.not_eq_true] at ha
      simp only [upsert_into, ha, Bool.false_eq_true, if_false, Option.map_eq_some'] at h
      obtain ⟨⟨l2, m2⟩, hrec, heq⟩ := h
      have h1 : a :: l2 = l' := congrArg Prod.fst heq
      have h2 : m2 = m := congrArg Prod.snd heq
      subst h2
      obtain ⟨hlen, acc, hmem, hpred, hm⟩ := ih l2 m2 hrec
      exact ⟨by simp [← h1, hlen], acc, by simp [hmem], hpred, hm⟩

/-- C5: for every upsert that matches an existing stored account, the merged
record keeps the existing `id` and `created_at`, and each overwritable field
(label, token bundle, API key, `last_refresh`, `last_used_at`) takes the
incoming value exactly when the incoming record supplies one, keeping the
existing value otherwise; when nothing matches, the appended record is the
incoming one with `created_at = now` filled in only when unset. -/
theorem upsert_merge_frame (data : AccountsFile) (newAccount : StoredAccount) (now : Int) :
    (∀ pre acc post,
      data.accounts = pre ++ acc :: post →
      (∀ x ∈ pre, upsert_match_pred newAccount x = false) →
      upsert_match_pred newAccount acc = true →
      (upsert_account data newAccount now).1.accounts =
        pre ++ merge_account acc newAccount :: post ∧
      (upsert_account data newAccount now).2 = merge_account acc newAccount ∧
      (merge_account acc newAccount).id = acc.id ∧
      (merge_account acc newAccount).created_at = acc.created_at ∧
      (merge_account acc newAccount).label = newAccount.label.or acc.label ∧
      (merge_account acc newAccount).tokens = newAccount.tokens.or acc.tokens ∧
      (merge_account acc newAccount).openai_api_key =
        newAccount.openai_api_key.or acc.openai_api_key ∧
      (merge_account acc newAccount).last_refresh =
        newAccount.last_refresh.or acc.last_refresh ∧
      (merge_account acc newAccount).last_used_at =
        newAccount.last_used_at.or acc.last_used_at) ∧
    ((∀ x ∈ data.accounts, upsert_match_pred newAccount x = false) →
      (upsert_account data newAccount now).1.accounts =
        data.accounts ++ [(upsert_account data newAccount now).2] ∧
      (upsert_account data newAccount now).2.created_at =
        newAccount.created_at.or (some now) ∧
      (upsert_account data newAccount now).2.id = newAccount.id ∧
      (upsert_account data newAccount now).2.label = newAccount.label ∧
      (upsert_account data newAccount now).2.tokens = newAccount.tokens ∧
      (upsert_account data newAccount now).2.openai_api_key = newAccount.openai_api_key ∧
      (upsert_account data newAccount now).2.last_refresh = newAccount.last_refresh ∧
      (upsert_account data newAccount now).2.last_used_at = newAccount.last_used_at) := by
  constructor
  · intro pre acc post hsplit hpre hacc
    have hu := upsert_into_of_first_match (upsert_match_pred newAccount) newAccount
      pre post acc hpre hacc
    have hres : upsert_account data newAccount now =
        ({ data with accounts := pre ++ merge_account acc newAccount :: post },
         merge_account acc newAccount) := by
      unfold upsert_account
      rw [hsplit, hu]
    obtain ⟨h1, h2, h3, h4, h5, h6, h7, h8⟩ := merge_account_fields acc newAccount
    exact ⟨by rw [hres], by rw [hres], h1, h3, h4, h5, h6, h7, h8⟩
  · intro hall
    have hu : upsert_into (upsert_match_pred newAccount) newAccount data.accounts = none :=
      (upsert_into_eq_none_iff _ _ _).mpr hall
    by_cases hca : newAccount.created_at = none
    · have hres : upsert_account data newAccount now =
          ({ data with accounts :=
              data.accounts ++ [{ newAccount with created_at := some now }] },
           { newAccount with created_at := some now }) := by
        unfold upsert_account
        rw [hu]
        simp only [hca, if_true]
      rw [hres]
      refine ⟨rfl, ?_, rfl, rfl, rfl, rfl, rfl, rfl⟩
      rw [hca]
      rfl
    · obtain ⟨c, hc⟩ := Option.ne_none_iff_exists'.mp hca
      have hres : upsert_account data newAccount now =
          ({ data with accounts := data.accounts ++ [newAccount] }, newAccount) := by
        unfold upsert_account
        rw [hu]
        simp only [hca, if_false]
      rw [hres]
      refine ⟨rfl, ?_, rfl, rfl, rfl, rfl, rfl, rfl⟩
      rw [hc]
      rfl

/-- Closed witness for `upsert_merge_frame`. -/
theorem upsert_merge_frame_witness :
    ((upsert_account
        { version := 1, active_account_id := none,
          accounts := [{ id := "old", mode := AuthMode.apiKey, label := some "L",
                         openai_api_key := some "sk-1", tokens := none,
                         last_refresh := none, created_at := some 7,
                         last_used_at := none }] }
        { id := "fresh", mode := AuthMode.apiKey, label := none,
          openai_api_key := some "sk-1", tokens := none, last_refresh := none,
          created_at := none, last_used_at := none } 9).2).id = "old" ∧
    ((upsert_account
        { version := 1, active_account_id := none,
          accounts := [{ id := "old", mode := AuthMode.apiKey, label := some "L",
                         openai_api_key := some "sk-1", tokens := none,
                         last_refresh := none, created_at := some 7,
                         last_used_at := none }] }
        { id := "fresh", mode := AuthMode.apiKey, label := none,
          openai_api_key := some "sk-1", tokens := none, last_refresh := none,
          created_at := none, last_used_at := none } 9).2).created_at = some 7 := by
  have h := (upsert_merge_frame
    { version := 1, active_account_id := none,
      accounts := [{ id := "old", mode := AuthMode.apiKey, label := some "L",
                     openai_api_key := some "sk-1", tokens := none,
                     last_refresh := none, created_at := some 7,
                     last_used_at := none }] }
    { id := "fresh", mode := AuthMode.apiKey, label := none,
      openai_api_key := some "sk-1", tokens := none, last_refresh := none,
      created_at := none, last_used_at := none } 9).1
    [] _ [] rfl (by simp) (by decide)
  obtain ⟨-, h2, h3, h4, -⟩ := h
  rw [h2, h3, h4]
  exact ⟨rfl, rfl⟩

theorem match_chatgpt_iff (acc : StoredAccount) (tokens : TokenData)
    (h : acc.tokens.isSome = true → acc.mode = AuthMode.chatGPT) :
    (match_chatgpt_account acc tokens = true) ↔ chatgpt_bundle_match acc tokens := by
  rcases hT : acc.tokens with _ | et
  · simp [match_chatgpt_account, chatgpt_bundle_match, hT]
  · have hmode : acc.mode = AuthMode.chatGPT := h (by rw [hT]; rfl)
    obtain ⟨⟨em1, plan1⟩, at1, rt1, aid1⟩ := et
    obtain ⟨⟨em2, plan2⟩, at2, rt2, aid2⟩ := tokens
    cases aid1 <;> cases aid2 <;> cases em1 <;> cases em2 <;>
      simp [match_chatgpt_account, chatgpt_bundle_match, hT, hmode, and_assoc]

/-- C1: an incoming session-token credential merges into an existing stored
account iff both the external account identifier and the normalized
(trimmed, case-insensitive) email of the incoming bundle equal those of the
existing account's bundle; when no stored account satisfies both (emails
alone, identifiers alone, or missing fields), a record with the fresh id is
appended instead. Stated over stores whose token-bearing records are
ChatGPT-mode (the invariant every write path of `auth_accounts.rs`
maintains) and a genuinely fresh id. -/
theorem upsert_chatgpt_merge_iff (data : AccountsFile) (tokens : TokenData)
    (last_refresh : Int) (label : Option String) (freshId : String) (now : Int)
    (hmode : ∀ acc ∈ data.accounts, acc.tokens.isSome = true → acc.mode = AuthMode.chatGPT)
    (hfresh : freshId ∉ data.accounts.map StoredAccount.id) :
    ((∃ acc ∈ data.accounts, chatgpt_bundle_match acc tokens) →
      (upsert_chatgpt_account data tokens last_refresh label false freshId now).1.accounts.length
          = data.accounts.length ∧
      (upsert_chatgpt_account data tokens last_refresh label false freshId now).2.id
          ∈ data.accounts.map StoredAccount.id) ∧
    ((¬ ∃ acc ∈ data.accounts, chatgpt_bundle_match acc tokens) →
      (upsert_chatgpt_account data tokens last_refresh label false freshId now).1.accounts
          = data.accounts ++
            [(upsert_chatgpt_account data tokens last_refresh label false freshId now).2] ∧
      (upsert_chatgpt_account data tokens last_refresh label false freshId now).2.id = freshId ∧
      (upsert_chatgpt_account data tokens last_refresh label false freshId now).2.id
          ∉ data.accounts.map StoredAccount.id) := by
  have hwrap : upsert_chatgpt_account data tokens last_refresh label false freshId now =
      upsert_account data
        { id := freshId, mode := AuthMode.chatGPT, label := label, openai_api_key := none,
          tokens := some tokens, last_refresh := some last_refresh, created_at := none,
          last_used_at := none } now := rfl
  have hpred : ∀ acc,
      upsert_match_pred
        { id := freshId, mode := AuthMode.chatGPT, label := label, openai_api_key := none,
          tokens := some tokens, last_refresh := some last_refresh, created_at := none,
          last_used_at := none } acc = match_chatgpt_account acc tokens := fun _ => rfl
  constructor
  · rintro ⟨acc, hmem, hbm⟩
    have hm : match_chatgpt_account acc tokens = true :=
      (match_chatgpt_iff acc tokens (hmode acc hmem)).mpr hbm
    rcases hcase : upsert_into
        (upsert_match_pred
          { id := freshId, mode := AuthMode.chatGPT, label := label, openai_api_key := none,
            tokens := some tokens, last_refresh := some last_refresh, created_at := none,
            last_used_at := none })
        { id := freshId, mode := AuthMode.chatGPT, label := label, openai_api_key := none,
          tokens := some tokens, last_refresh := some last_refresh, created_at := none,
          last_used_at := none } data.accounts with _ | p
    · exfalso
      have hfalse := (upsert_into_eq_none_iff _ _ _).mp hcase acc hmem
      rw [hpred acc, hm] at hfalse
      exact Bool.true_eq_false.mp hfalse
    · obtain ⟨l', m⟩ := p
      have hres : upsert_account data
          { id := freshId, mode := AuthMode.chatGPT, label := label, openai_api_key := none,
            tokens := some tokens, last_refresh := some last_refresh, created_at := none,
            last_used_at := none } now = ({ data with accounts := l' }, m) := by
        unfold upsert_account
        rw [hcase]
      obtain ⟨hlen, acc', hmem', _, hm'⟩ := upsert_into_some_spec _ _ _ _ _ hcase
      rw [hwrap, hres]
      refine ⟨hlen, ?_⟩
      have hid : m.id = acc'.id := by
        rw [hm']
        exact (merge_account_fields acc' _).1
      rw [hid]
      exact List.mem_map.mpr ⟨acc', hmem', rfl⟩
  · intro hne
    have hall : ∀ x ∈ data.accounts,
        upsert_match_pred
          { id := freshId, mode := AuthMode.chatGPT, label := label, openai_api_key := none,
            tokens := some tokens, last_refresh := some last_refresh, created_at := none,
            last_used_at := none } x = false := by
      intro x hx
      rw [hpred x]
      by_cases hmx : match_chatgpt_account x tokens = true
      · exact absurd ⟨x, hx, (match_chatgpt_iff x tokens (hmode x hx)).mp hmx⟩ hne
      · simpa using hmx
    have hu := (upsert_into_eq_none_iff
      (upsert_match_pred
        { id := freshId, mode := AuthMode.chatGPT, label := label, openai_api_key := none,
          tokens := some tokens, last_refresh := some last_refresh, created_at := none,
          last_used_at := none })
      { id := freshId, mode := AuthMode.chatGPT, label := label, openai_api_key := none,
        tokens := some tokens, last_refresh := some last_refresh, created_at := none,
        last_used_at := none } data.accounts).mpr hall
    have hres : upsert_account data
        { id := freshId, mode := AuthMode.chatGPT, label := label, openai_api_key := none,
          tokens := some tokens, last_refresh := some last_refresh, created_at := none,
          last_used_at := none } now =
        ({ data with accounts := data.accounts ++
            [{ id := freshId, mode := AuthMode.chatGPT, label := label, openai_api_key := none,
               tokens := some tokens, last_refresh := some last_refresh,
               created_at := some now, last_used_at := none }] },
         { id := freshId, mode := AuthMode.chatGPT, label := label, openai_api_key := none,
           tokens := some tokens, last_refresh := some last_refresh,
           created_at := some now, last_used_at := none }) := by
      unfold upsert_account
      rw [hu]
      rfl
    rw [hwrap, hres]
    exact ⟨rfl, rfl, hfresh⟩

/-- Closed witness for `upsert_chatgpt_merge_iff`: a store holding one
ChatGPT record with the same account id and same email merges (count stays
1, id is the old one). -/
theorem upsert_chatgpt_merge_iff_witness :
    (upsert_chatgpt_account
      { version := 1, active_account_id := none,
        accounts := [{ id := "old", mode := AuthMode.chatGPT, label := none,
                       openai_api_key := none,
                       tokens := some { id_token := { email := some "user@example.com",
                                                      chatgpt_plan_type := none },
                                        access_token := "a", refresh_token := "r",
                                        account_id := some "acct-1" },
                       last_refresh := none, created_at := some 1, last_used_at := none }] }
      { id_token := { email := some "user@example.com", chatgpt_plan_type := none },
        access_token := "a2", refresh_token := "r2", account_id := some "acct-1" }
      5 none false "fresh-id" 5).1.accounts.length = 1 ∧
    (upsert_chatgpt_account
      { version := 1, active_account_id := none,
        accounts := [{ id := "old", mode := AuthMode.chatGPT, label := none,
                       openai_api_key := none,
                       tokens := some { id_token := { email := some "user@example.com",
                                                      chatgpt_plan_type := none },
                                        access_token := "a", refresh_token := "r",
                                        account_id := some "acct-1" },
                       last_refresh := none, created_at := some 1, last_used_at := none }] }
      { id_token := { email := some "user@example.com", chatgpt_plan_type := none },
        access_token := "a2", refresh_token := "r2", account_id := some "acct-1" }
      5 none false "fresh-id" 5).2.id ∈ ["old"] := by
  have h := (upsert_chatgpt_merge_iff
    { version := 1, active_account_id := none,
      accounts := [{ id := "old", mode := AuthMode.chatGPT, label := none,
                     openai_api_key := none,
                     tokens := some { id_token := { email := some "user@example.com",
                                                    chatgpt_plan_type := none },
                                      access_token := "a", refresh_token := "r",
                                      account_id := some "acct-1" },
                     last_refresh := none, created_at := some 1, last_used_at := none }] }
    { id_token := { email := some "user@example.com", chatgpt_plan_type := none },
      access_token := "a2", refresh_token := "r2", account_id := some "acct-1" }
    5 none "fresh-id" 5 (by decide) (by decide)).1
    ⟨_, List.mem_singleton.mpr rfl,
      ⟨_, rfl, ⟨"acct-1", rfl, rfl⟩, ⟨_, _, rfl, rfl, rfl⟩⟩⟩
  exact h

/-! ## Scheduler theorems (C2, C8, C9) -/

theorem assocFind_insert_self {α : Type} (l : List (String × α)) (k : String) (v : α) :
    assocFind (assocInsert l k v) k = some v := by
  induction l with
  | nil => simp [assocInsert, assocFind]
  | cons p rest ih =>
    by_cases h : p.1 = k
    · simp [assocInsert, assocFind, h]
    · simpa [assocInsert, assocFind, h] using ih

theorem assocFind_remove_self {α : Type} (l : List (String × α)) (k : String) :
    assocFind (assocRemove l k) k = none := by
  rcases h : (assocRemove l k).find? (fun p => p.1 = k) with _ | p
  · simp [assocFind, h]
  · exfalso
    have hk : p.1 = k := by simpa using List.find?_some h
    have hmem := List.mem_of_find?_eq_some h
    have hne : ¬(p.1 = k) := by simpa [assocRemove] using (List.mem_filter.mp hmem).2
    exact hne hk

theorem assocFind_of_mem_nodup {α : Type} (l : List (String × α)) (p : String × α)
    (hmem : p ∈ l) (hnd : (l.map Prod.fst).Nodup) : assocFind l p.1 = some p.2 := by
  induction l with
  | nil => simp at hmem
  | cons q rest ih =>
    rcases List.mem_cons.mp hmem with h | h
    · subst h
      simp [assocFind, List.find?]
    · have hq : q.1 ≠ p.1 := by
        intro he
        have : q.1 ∈ rest.map Prod.fst := he ▸ List.mem_map.mpr ⟨p, h, rfl⟩
        exact (List.nodup_cons.mp hnd).1 this
      have := ih h (List.nodup_cons.mp hnd).2
      simpa [assocFind, List.find?, hq] using this

theorem max_by_candidate_mem (l : List SlotCandidate) (c : SlotCandidate)
    (h : max_by_candidate l = some c) : c ∈ l := by
  suffices haux : ∀ (l : List SlotCandidate) (b : Option SlotCandidate) (c : SlotCandidate),
      l.foldl (fun best x =>
        match best with
        | none => some x
        | some b =>
          if x.weight < b.weight ∨
              (x.weight = b.weight ∧ x.selection.account_id < b.selection.account_id)
          then some b else some x) b = some c → b = some c ∨ c ∈ l by
    rcases haux l none c h with hb | hmem
    · simp at hb
    · exact hmem
  intro l
  induction l with
  | nil => intro b c h; exact Or.inl h
  | cons x rest ih =>
    intro b c h
    rcases ih _ c h with hstep | hmem
    · rcases b with _ | b'
      · replace hstep : some x = some c := hstep
        exact Or.inr (by simp [← Option.some.inj hstep])
      · replace hstep : (if x.weight < b'.weight ∨
            (x.weight = b'.weight ∧ x.selection.account_id < b'.selection.account_id)
            then some b' else some x) = some c := hstep
        by_cases hcond : x.weight < b'.weight ∨
            (x.weight = b'.weight ∧ x.selection.account_id < b'.selection.account_id)
        · rw [if_pos hcond] at hstep
          exact Or.inl hstep
        · rw [if_neg hcond] at hstep
          exact Or.inr (by simp [← Option.some.inj hstep])
    · exact Or.inr (by simp [hmem])

theorem next_account_cooldowns (st : SchedulerState) (now : Int)
    (accounts : List StoredAccount) (snaps : String → Option StoredRateLimitSnapshot)
    (identOrder : List String) :
    (next_account st now accounts snaps identOrder).1.cooldowns =
      prune_expired_cooldowns st.cooldowns now := by
  simp only [next_account]
  split
  · rfl
  · split <;> rfl

/-- C9: `record_outcome` touches only the in-memory cooldown map — the
weighted-round-robin state is untouched by every outcome (and the function
performs no I/O: it is a pure state update) — and recording `Success` for an
account with no cooldown entry leaves the scheduler state entirely
unchanged. -/
theorem record_outcome_frame (st : SchedulerState) (account_id : String)
    (outcome : SchedulerOutcome) (now : Int) :
    (record_outcome st account_id outcome now).weights = st.weights ∧
    (outcome = SchedulerOutcome.success →
      assocFind st.cooldowns account_id = none →
      record_outcome st account_id outcome now = st) := by
  constructor
  · cases outcome <;> rfl
  · rintro rfl hnone
    have hfind : st.cooldowns.find? (fun p => p.1 = account_id) = none := by
      rw [assocFind, Option.map_eq_none'] at hnone
      exact hnone
    have hall : ∀ p ∈ st.cooldowns, ¬(p.1 = account_id) := by
      intro p hp
      have := List.find?_eq_none.mp hfind p hp
      simpa using this
    have hc : assocRemove st.cooldowns account_id = st.cooldowns := by
      rw [assocRemove, List.filter_eq_self]
      intro p hp
      simpa using hall p hp
    show { st with cooldowns := assocRemove st.cooldowns account_id } = st
    rw [hc]

/-- Closed witness for `record_outcome_frame`. -/
theorem record_outcome_frame_witness :
    record_outcome { cooldowns := [("b", 9)], weights := [] } "a"
      SchedulerOutcome.success 5 = { cooldowns := [("b", 9)], weights := [] } :=
  (record_outcome_frame { cooldowns := [("b", 9)], weights := [] } "a"
    SchedulerOutcome.success 5).2 rfl (by decide)

theorem bump_total_sum (totals : List (String × ℚ)) (ident : String) (w : ℚ) :
    ((bump_total totals ident w).map (fun p => p.2)).sum =
      (totals.map (fun p => p.2)).sum + w := by
  induction totals with
  | nil => simp [bump_total]
  | cons p rest ih =>
    by_cases h : p.1 = ident
    · simp [bump_total, h]
      ring
    · simp [bump_total, h, ih]
      ring

theorem totals_by_identity_sum (slots : List SlotCandidate) :
    ((totals_by_identity slots).map (fun p => p.2)).sum =
      (slots.map (fun s => s.weight)).sum := by
  suffices haux : ∀ (slots : List SlotCandidate) (acc : List (String × ℚ)),
      ((slots.foldl (fun acc s => bump_total acc s.identity s.weight) acc).map
        (fun p => p.2)).sum =
      (acc.map (fun p => p.2)).sum + (slots.map (fun s => s.weight)).sum by
    simpa using haux slots []
  intro slots
  induction slots with
  | nil => intro acc; simp
  | cons s rest ih =>
    intro acc
    simp only [List.foldl_cons, List.map_cons, List.sum_cons]
    rw [ih (bump_total acc s.identity s.weight), bump_total_sum]
    ring

/-- C8: every candidate row `next_account` builds for an eligible account
carries a weight at least the fixed floor `MIN_EFFECTIVE_WEIGHT = 0.001`
(whether telemetry-derived or defaulted), so no eligible account has zero
weight and the summed identity weights over a non-empty eligible set are
strictly positive. -/
theorem eligible_weight_floor (cooldowns : List (String × Int)) (now : Int)
    (accounts : List StoredAccount) (snaps : String → Option StoredRateLimitSnapshot) :
    (∀ c ∈ candidate_slots cooldowns now accounts snaps,
      MIN_EFFECTIVE_WEIGHT ≤ c.weight ∧ 0 < c.weight) ∧
    (candidate_slots cooldowns now accounts snaps ≠ [] →
      0 < ((totals_by_identity (candidate_slots cooldowns now accounts snaps)).map
            (fun p => p.2)).sum) := by
  have hfloor : ∀ c ∈ candidate_slots cooldowns now accounts snaps,
      MIN_EFFECTIVE_WEIGHT ≤ c.weight ∧ 0 < c.weight := by
    intro c hc
    obtain ⟨a, _, rfl⟩ := List.mem_map.mp hc
    refine ⟨le_max_right _ _, lt_of_lt_of_le (by norm_num [MIN_EFFECTIVE_WEIGHT]) (le_max_right _ _)⟩
  refine ⟨hfloor, ?_⟩
  intro hne
  rw [totals_by_identity_sum]
  rcases hcs : candidate_slots cooldowns now accounts snaps with _ | ⟨c, rest⟩
  · exact absurd hcs hne
  · simp only [List.map_cons, List.sum_cons]
    have hc : 0 < c.weight := (hfloor c (by rw [hcs]; simp)).2
    have hrest : 0 ≤ (rest.map (fun s => s.weight)).sum := by
      apply List.sum_nonneg
      intro x hx
      obtain ⟨s, hs, rfl⟩ := List.mem_map.mp hx
      exact le_of_lt (hfloor s (by rw [hcs]; simp [hs])).2
    linarith

/-- Closed witness for `eligible_weight_floor`. -/
theorem eligible_weight_floor_witness :
    0 < ((totals_by_identity (candidate_slots []  0
          [{ id := "a", mode := AuthMode.apiKey, label := none,
             openai_api_key := some "sk", tokens := none, last_refresh := none,
             created_at := none, last_used_at := none }] (fun _ => none))).map
          (fun p => p.2)).sum :=
  (eligible_weight_floor [] 0
    [{ id := "a", mode := AuthMode.apiKey, label := none,
       openai_api_key := some "sk", tokens := none, last_refresh := none,
       created_at := none, last_used_at := none }] (fun _ => none)).2 (by decide)

/-- C2: recording `RateLimited{resume_at}` sets the account's cooldown to
`resume_at` (or `now + 15s` when absent); recording `Success` clears it;
`next_account` prunes exactly the expired entries and never returns an
account whose recorded resume time is strictly in the future; an account
whose resume time has been reached passes the eligibility filter again
(stated with the hash map's unique-key invariant). -/
theorem scheduler_cooldown_spec (st : SchedulerState) (account_id : String)
    (resume_at : Option Int) (now : Int) (accounts : List StoredAccount)
    (snaps : String → Option StoredRateLimitSnapshot) (identOrder : List String)
    (hkeys : (st.cooldowns.map Prod.fst).Nodup) :
    assocFind (record_outcome st account_id
        (SchedulerOutcome.rateLimited resume_at) now).cooldowns account_id =
      some (resume_at.getD (now + DEFAULT_COOLDOWN_SECS)) ∧
    assocFind (record_outcome st account_id
        SchedulerOutcome.success now).cooldowns account_id = none ∧
    (next_account st now accounts snaps identOrder).1.cooldowns =
      prune_expired_cooldowns st.cooldowns now ∧
    (∀ sel, (next_account st now accounts snaps identOrder).2 = some sel →
      ∀ r, assocFind st.cooldowns sel.account_id = some r → r ≤ now) ∧
    (∀ a ∈ accounts, has_credentials a = true →
      (∀ r, assocFind st.cooldowns a.id = some r → r ≤ now) →
      a ∈ eligible_accounts (prune_expired_cooldowns st.cooldowns now) now accounts) := by
  have hpruned_blocked : ∀ (aid : String),
      (∀ r, assocFind st.cooldowns aid = some r → r ≤ now) →
      is_blocked (prune_expired_cooldowns st.cooldowns now) aid now = false := by
    intro aid hle
    rcases hf : assocFind (prune_expired_cooldowns st.cooldowns now) aid with _ | resume
    · simp [is_blocked, hf]
    · exfalso
      rcases hp : (prune_expired_cooldowns st.cooldowns now).find? (fun q => q.1 = aid)
        with _ | p
      · rw [assocFind, hp] at hf
        simp at hf
      · rw [assocFind, hp] at hf
        have hkey : p.1 = aid := by simpa using List.find?_some hp
        have hmem' := List.mem_filter.mp (List.mem_of_find?_eq_some hp)
        have hlt : now < p.2 := by simpa using hmem'.2
        have hfst : assocFind st.cooldowns aid = some p.2 := by
          rw [← hkey]
          exact assocFind_of_mem_nodup st.cooldowns p hmem'.1 hkeys
        have := hle p.2 hfst
        linarith
  have hblocked_pruned : ∀ (aid : String),
      is_blocked (prune_expired_cooldowns st.cooldowns now) aid now = false →
      ∀ r, assocFind st.cooldowns aid = some r → r ≤ now := by
    intro aid hnb r hfind
    rcases hp : st.cooldowns.find? (fun q => q.1 = aid) with _ | p
    · rw [assocFind, hp] at hfind
      simp at hfind
    · rw [assocFind, hp] at hfind
      have hval : p.2 = r := by simpa using hfind
      have hkey : p.1 = aid := by simpa using List.find?_some hp
      have hmem := List.mem_of_find?_eq_some hp
      by_contra hgt
      push_neg at hgt
      have hmemp : p ∈ prune_expired_cooldowns st.cooldowns now :=
        List.mem_filter.mpr ⟨hmem, by simp only [decide_eq_true_eq, hval]; exact hgt⟩
      rcases hfp : (prune_expired_cooldowns st.cooldowns now).find? (fun x => x.1 = aid)
        with _ | q
      · have := List.find?_eq_none.mp hfp p hmemp
        exact this (by simpa using hkey)
      · have hqmem := List.mem_filter.mp (List.mem_of_find?_eq_some hfp)
        have hqlt : now < q.2 := by simpa using hqmem.2
        rw [is_blocked, assocFind, hfp] at hnb
        simp [hqlt] at hnb
  refine ⟨?_, ?_, next_account_cooldowns st now accounts snaps identOrder, ?_, ?_⟩
  · simp [record_outcome, assocFind_insert_self]
  · simp [record_outcome, assocFind_remove_self]
  · intro sel hsel r hfind
    have hsel' : (next_account st now accounts snaps identOrder).2 = some sel := hsel
    simp only [next_account] at hsel'
    split at hsel'
    · simp at hsel'
    · split at hsel'
      · simp at hsel'
      · rename_i weights2 best heq
        obtain ⟨cand, hcand, hcsel⟩ := Option.map_eq_some'.mp hsel'
        have hcmem := max_by_candidate_mem _ _ hcand
        have hcmem' := List.mem_filter.mp hcmem
        obtain ⟨a, ha, hamk⟩ := List.mem_map.mp hcmem'.1
        have haid : sel.account_id = a.id := by
          rw [← hcsel, ← hamk]
        have hael := List.mem_filter.mp ha
        have hnb : is_blocked (prune_expired_cooldowns st.cooldowns now) a.id now = false := by
          have := hael.2
          simp only [Bool.and_eq_true, Bool.not_eq_true'] at this
          exact this.2
        exact hblocked_pruned a.id hnb r (by rw [haid] at hfind; exact hfind)
  · intro a hmem hcred hle
    refine List.mem_filter.mpr ⟨hmem, ?_⟩
    simp only [Bool.and_eq_true, Bool.not_eq_true']
    exact ⟨hcred, hpruned_blocked a.id hle⟩

/-- Closed witness for `scheduler_cooldown_spec`. -/
theorem scheduler_cooldown_spec_witness :
    assocFind (record_outcome { cooldowns := [("x", 3)], weights := [] } "x"
        (SchedulerOutcome.rateLimited none) 5).cooldowns "x" = some 20 ∧
    (next_account { cooldowns := [("x", 3)], weights := [] } 5
        [{ id := "x", mode := AuthMode.apiKey, label := none,
           openai_api_key := some "sk", tokens := none, last_refresh := none,
           created_at := none, last_used_at := none }]
        (fun _ => none) ["x"]).1.cooldowns = [] := by
  have h := scheduler_cooldown_spec { cooldowns := [("x", 3)], weights := [] } "x" none 5
    [{ id := "x", mode := AuthMode.apiKey, label := none,
       openai_api_key := some "sk", tokens := none, last_refresh := none,
       created_at := none, last_used_at := none }]
    (fun _ => none) ["x"] (by decide)
  refine ⟨by simpa using h.1, ?_⟩
  rw [h.2.2.1]
  decide

/-! ## Scheduling identity (C4) -/

/-- C4 counterexample: two explicitly registered (non-slot) accounts whose
session-token account identifiers are both present and equal are still two
distinct scheduling identities, because `slot_identity` only consults the
token identifier for records whose id starts with "slot-". -/
theorem slot_identity_counterexample :
    ({ id := "11111111-aaaa", mode := AuthMode.chatGPT, label := none,
       openai_api_key := none,
       tokens := some { id_token := { email := some "p@x.com", chatgpt_plan_type := none },
                        access_token := "a", refresh_token := "r",
                        account_id := some "acct-shared" },
       last_refresh := none, created_at := none,
       last_used_at := none } : StoredAccount).tokens.bind (fun t => t.account_id)
        = some "acct-shared" ∧
    ({ id := "22222222-bbbb", mode := AuthMode.chatGPT, label := none,
       openai_api_key := none,
       tokens := some { id_token := { email := some "q@y.com", chatgpt_plan_type := none },
                        access_token := "a2", refresh_token := "r2",
                        account_id := some "acct-shared" },
       last_refresh := none, created_at := none,
       last_used_at := none } : StoredAccount).tokens.bind (fun t => t.account_id)
        = some "acct-shared" ∧
    slot_identity
      { id := "11111111-aaaa", mode := AuthMode.chatGPT, label := none,
        openai_api_key := none,
        tokens := some { id_token := { email := some "p@x.com", chatgpt_plan_type := none },
                         access_token := "a", refresh_token := "r",
                         account_id := some "acct-shared" },
        last_refresh := none, created_at := none, last_used_at := none } ≠
    slot_identity
      { id := "22222222-bbbb", mode := AuthMode.chatGPT, label := none,
        openai_api_key := none,
        tokens := some { id_token := { email := some "q@y.com", chatgpt_plan_type := none },
                         access_token := "a2", refresh_token := "r2",
                         account_id := some "acct-shared" },
        last_refresh := none, created_at := none, last_used_at := none } := by
  refine ⟨rfl, rfl, ?_⟩
  decide

/-- C4 amended: only slot-derived records (id starting with "slot-") collapse
on the session-token account identifier — two such records with identifiers
both present share a scheduling identity iff the identifiers are equal; a
non-slot record is always its own identity keyed by its record id (even when
token identifiers match another record's), and a slot record with no token
identifier falls back to its own record id. -/
theorem slot_identity_spec (a b : StoredAccount)
    (ha : "slot-".data.isPrefixOf a.id.data = true)
    (hb : "slot-".data.isPrefixOf b.id.data = true)
    (haid : ∃ x, a.tokens.bind (fun t => t.account_id) = some x)
    (hbid : ∃ y, b.tokens.bind (fun t => t.account_id) = some y) :
    ((slot_identity a = slot_identity b) ↔
      a.tokens.bind (fun t => t.account_id) = b.tokens.bind (fun t => t.account_id)) ∧
    (∀ c : StoredAccount, "slot-".data.isPrefixOf c.id.data = false →
      slot_identity c = c.id) ∧
    (∀ c : StoredAccount, "slot-".data.isPrefixOf c.id.data = true →
      c.tokens.bind (fun t => t.account_id) = none → slot_identity c = c.id) := by
  obtain ⟨x, hx⟩ := haid
  obtain ⟨y, hy⟩ := hbid
  refine ⟨?_, ?_, ?_⟩
  · rw [slot_identity, slot_identity, ha, hb]
    simp only [Bool.true_eq_false, if_false, hx, hy, Option.getD_some]
    exact ⟨fun h => by rw [h], fun h => Option.some.inj h⟩
  · intro c hc
    rw [slot_identity, hc]
    simp
  · intro c hc hcn
    rw [slot_identity, hc]
    simp [hcn]

/-- Closed witness for `slot_identity_spec`: two slot records logged into the
same upstream account share one identity. -/
theorem slot_identity_spec_witness :
    slot_identity
      { id := "slot-one", mode := AuthMode.chatGPT, label := none,
        openai_api_key := none,
        tokens := some { id_token := { email := none, chatgpt_plan_type := none },
                         access_token := "a", refresh_token := "r",
                         account_id := some "acct-up" },
        last_refresh := none, created_at := none, last_used_at := none } =
    slot_identity
      { id := "slot-two", mode := AuthMode.chatGPT, label := none,
        openai_api_key := none,
        tokens := some { id_token := { email := none, chatgpt_plan_type := none },
                         access_token := "b", refresh_token := "s",
                         account_id := some "acct-up" },
        last_refresh := none, created_at := none, last_used_at := none } := by
  have h := (slot_identity_spec
    { id := "slot-one", mode := AuthMode.chatGPT, label := none,
      openai_api_key := none,
      tokens := some { id_token := { email := none, chatgpt_plan_type := none },
                       access_token := "a", refresh_token := "r",
                       account_id := some "acct-up" },
      last_refresh := none, created_at := none, last_used_at := none }
    { id := "slot-two", mode := AuthMode.chatGPT, label := none,
      openai_api_key := none,
      tokens := some { id_token := { email := none, chatgpt_plan_type := none },
                       access_token := "b", refresh_token := "s",
                       account_id := some "acct-up" },
      last_refresh := none, created_at := none, last_used_at := none }
    (by decide) (by decide) ⟨"acct-up", rfl⟩ ⟨"acct-up", rfl⟩).1
  exact h.mpr rfl

/-! ## Slot label normalization (C10) -/

/-- C10: `add_slot` and `rename_slot` trim the supplied label; an absent,
empty, or whitespace-only label is stored as no label (`clean_label` yields
`none`), in which case `add_slot` names the directory from the "custom" slug,
and `rename_slot` clears the slot's label instead of storing a blank one. -/
theorem slot_label_normalization (registry : List SlotRegistryEntry)
    (code_home : List String) (rootChildren : List FsTree)
    (authAt : List String → Bool) (label : Option String) (slot_id : String)
    (new_label : Option String) :
    ((add_slot registry code_home rootChildren authAt label).2.label = clean_label label) ∧
    ((add_slot registry code_home rootChildren authAt label).1 =
      registry ++ [{ id := (add_slot registry code_home rootChildren authAt label).2.id,
                     label := clean_label label,
                     path := some (relativize_path code_home
                       (add_slot registry code_home rootChildren authAt label).2.path) }]) ∧
    (∀ s, label = some s → (rust_trim s).data.isEmpty = false →
      clean_label label = some (rust_trim s)) ∧
    (clean_label label = none →
      (add_slot registry code_home rootChildren authAt label).2.id =
        (ensure_unique_slot_id (make_slot_id_slug ["custom"])
          (registry.map (fun e => e.id) ++
            (scan_slot_dirs rootChildren).map (fun s => s.id))).1) ∧
    (slot_id ≠ DEFAULT_SLOT_ID →
      ∀ entry, registry.find? (fun e => e.id = slot_id) = some entry →
      (rename_slot registry code_home authAt slot_id new_label).2.map
          (fun s => s.label) = some (clean_label new_label) ∧
      (rename_slot registry code_home authAt slot_id new_label).1 =
        update_first_entry slot_id (fun e => { e with label := clean_label new_label })
          registry) := by
  refine ⟨rfl, rfl, ?_, ?_, ?_⟩
  · intro s hs hne
    rw [hs]
    have hd : ¬(rust_trim s).data = [] := by
      intro h
      rw [h] at hne
      simp at hne
    simp [clean_label, hd]
  · intro hclean
    simp only [add_slot, hclean, Option.map_none']
    rfl
  · intro hdef entry hentry
    rw [rename_slot, if_neg hdef, hentry]
    exact ⟨rfl, rfl⟩

/-- Closed witness for `slot_label_normalization`: renaming with a
whitespace-only label clears the stored label. -/
theorem slot_label_normalization_witness :
    (rename_slot [{ id := "slot-work", label := some "Work", path := none }] ["home"]
        (fun _ => false) "slot-work" (some "   ")).2.map (fun s => s.label) = some none := by
  have h := (slot_label_normalization [{ id := "slot-work", label := some "Work", path := none }]
    ["home"] [] (fun _ => false) none "slot-work" (some "   ")).2.2.2.2
    (by decide) { id := "slot-work", label := some "Work", path := none } (by decide)
  rw [h.1]
  decide

/-! ## Discovery slug lemmas (towards C6 and C7) -/

theorem isAsciiAlnum_of_lower (c d : Char) (hcd : asciiLowerChar c = d)
    (h1 : 97 ≤ d.toNat) (h2 : d.toNat ≤ 122) : isAsciiAlphanumeric c = true := by
  rw [asciiLowerChar] at hcd
  by_cases h : 65 ≤ c.toNat ∧ c.toNat ≤ 90
  · simp only [isAsciiAlphanumeric, decide_eq_true_eq]
    omega
  · rw [if_neg h] at hcd
    subst hcd
    simp only [isAsciiAlphanumeric, decide_eq_true_eq]
    omega

theorem dropWhile_dash_append_tols (r : List Char) :
    ∃ w, List.dropWhile (fun c => decide (c = '-')) (r ++ ['t', 'o', 'l', 's']) =
      w ++ ['t', 'o', 'l', 's'] := by
  induction r with
  | nil => exact ⟨[], by decide⟩
  | cons c r' ih =>
    by_cases hc : c = '-'
    · obtain ⟨w, hw⟩ := ih
      refine ⟨w, ?_⟩
      rw [List.cons_append, List.dropWhile_cons, if_pos (by simp [hc])]
      exact hw
    · refine ⟨c :: r', ?_⟩
      rw [List.cons_append, List.dropWhile_cons]
      simp [hc]

theorem trimDashes_slot (w : List Char) :
    ∃ u, trimDashes ('s' :: 'l' :: 'o' :: 't' :: w) = 's' :: 'l' :: 'o' :: 't' :: u := by
  rw [trimDashes, List.dropWhile_cons, if_neg (by decide)]
  have hrev : ('s' :: 'l' :: 'o' :: 't' :: w).reverse = w.reverse ++ ['t', 'o', 'l', 's'] := by
    simp
  rw [hrev]
  obtain ⟨w', hw'⟩ := dropWhile_dash_append_tols w.reverse
  rw [hw']
  exact ⟨w'.reverse, by simp⟩

theorem sanitize_slot_prefix (name : String) (h : startsWithSlot name = true) :
    ∃ u, (sanitize_slot_component name).data = 's' :: 'l' :: 'o' :: 't' :: u := by
  rw [startsWithSlot] at h
  have hpre : "slot".data <+: name.data.map asciiLowerChar :=
    List.isPrefixOf_iff_prefix.mp h
  rw [show "slot".data = ['s', 'l', 'o', 't'] from by decide] at hpre
  rcases hd1 : name.data with _ | ⟨c1, l1⟩
  · rw [hd1] at hpre
    simp at hpre
  rw [hd1, List.map_cons, List.cons_prefix_cons] at hpre
  obtain ⟨hc1, hpre⟩ := hpre
  rcases l1 with _ | ⟨c2, l2⟩
  · simp at hpre
  rw [List.map_cons, List.cons_prefix_cons] at hpre
  obtain ⟨hc2, hpre⟩ := hpre
  rcases l2 with _ | ⟨c3, l3⟩
  · simp at hpre
  rw [List.map_cons, List.cons_prefix_cons] at hpre
  obtain ⟨hc3, hpre⟩ := hpre
  rcases l3 with _ | ⟨c4, l4⟩
  · simp at hpre
  rw [List.map_cons, List.cons_prefix_cons] at hpre
  obtain ⟨hc4, _⟩ := hpre
  have ha1 : isAsciiAlphanumeric c1 = true :=
    isAsciiAlnum_of_lower c1 's' hc1.symm (by decide) (by decide)
  have ha2 : isAsciiAlphanumeric c2 = true :=
    isAsciiAlnum_of_lower c2 'l' hc2.symm (by decide) (by decide)
  have ha3 : isAsciiAlphanumeric c3 = true :=
    isAsciiAlnum_of_lower c3 'o' hc3.symm (by decide) (by decide)
  have ha4 : isAsciiAlphanumeric c4 = true :=
    isAsciiAlnum_of_lower c4 't' hc4.symm (by decide) (by decide)
  have hs : sanitizeChars (c1 :: c2 :: c3 :: c4 :: l4) false =
      's' :: 'l' :: 'o' :: 't' :: sanitizeChars l4 false := by
    simp only [sanitizeChars, ha1, ha2, ha3, ha4, if_true, ← hc1, ← hc2, ← hc3, ← hc4]
  rw [sanitize_slot_component, hd1, hs]
  obtain ⟨u, hu⟩ := trimDashes_slot (sanitizeChars l4 false)
  exact ⟨u, by rw [hu]⟩

theorem joinSep_cons_data (sep a : String) (rest : List String) :
    ∃ u, (joinSep sep (a :: rest)).data = a.data ++ u := by
  cases rest with
  | nil => exact ⟨[], by simp [joinSep]⟩
  | cons b r =>
    refine ⟨(sep ++ joinSep sep (b :: r)).data, ?_⟩
    show (a ++ sep ++ joinSep sep (b :: r)).data = _
    simp [String.data_append, List.append_assoc]

theorem make_slot_id_slug_prefix (hd : String) (tl : List String)
    (hslot : startsWithSlot hd = true) :
    ∃ u, (make_slot_id_slug (hd :: tl)).data =
      's' :: 'l' :: 'o' :: 't' :: '-' :: 's' :: 'l' :: 'o' :: 't' :: u := by
  obtain ⟨u1, hu1⟩ := sanitize_slot_prefix hd hslot
  have hne : (sanitize_slot_component hd).data.isEmpty = false := by
    rw [hu1]
    rfl
  rw [make_slot_id_slug]
  simp only [List.map_cons, List.filter_cons, hne, Bool.not_false, if_true]
  have hcons : ((sanitize_slot_component hd ::
      (tl.map sanitize_slot_component).filter (fun c => !c.data.isEmpty)) : List String).isEmpty
      = false := rfl
  rw [hcons]
  simp only [Bool.false_eq_true, if_false]
  obtain ⟨u2, hu2⟩ := joinSep_cons_data "-" (sanitize_slot_component hd)
    ((tl.map sanitize_slot_component).filter (fun c => !c.data.isEmpty))
  rw [String.data_append, hu2, hu1]
  refine ⟨u1 ++ u2, ?_⟩
  rw [show "slot-".data = ['s', 'l', 'o', 't', '-'] from by decide]
  rfl

theorem ensure_unique_go_prefix (base : String) (seen : List String) :
    ∀ (fuel counter : Nat), ∃ u, (ensure_unique_go base seen counter fuel).data =
      base.data ++ u := by
  intro fuel
  induction fuel with
  | zero => intro counter; exact ⟨[], by simp [ensure_unique_go]⟩
  | succ n ih =>
    intro counter
    rw [ensure_unique_go]
    by_cases h : (base ++ "-" ++ toString counter) ∈ seen
    · simp only [h, if_true]
      exact ih (counter + 1)
    · simp only [h, if_false]
      exact ⟨"-".data ++ (toString counter).data, by
        simp [String.data_append, List.append_assoc]⟩

theorem ensure_unique_prefix (base : String) (seen : List String) :
    ∃ u, (ensure_unique_slot_id base seen).1.data = base.data ++ u := by
  rw [ensure_unique_slot_id]
  by_cases h : base ∈ seen
  · simp only [h, if_true]
    exact ensure_unique_go_prefix base seen (seen.length + 1) 2
  · simp only [h, if_false]
    exact ⟨[], by simp⟩

theorem slotslot_ne_default (l : List Char)
    (h : ∃ u, l = 's' :: 'l' :: 'o' :: 't' :: '-' :: 's' :: 'l' :: 'o' :: 't' :: u) :
    ¬(String.mk l = DEFAULT_SLOT_ID) := by
  obtain ⟨u, rfl⟩ := h
  intro he
  have hd : ('s' :: 'l' :: 'o' :: 't' :: '-' :: 's' :: 'l' :: 'o' :: 't' :: u) =
      DEFAULT_SLOT_ID.data := congrArg String.data he
  rw [show DEFAULT_SLOT_ID.data = ['s', 'l', 'o', 't', '-', 'd', 'e', 'f', 'a', 'u', 'l', 't']
    from by decide] at hd
  injection hd with c1 hd
  injection hd with c2 hd
  injection hd with c3 hd
  injection hd with c4 hd
  injection hd with c5 hd
  injection hd with c6 hd
  exact absurd c6 (by decide)

/-! ## Scan structure lemmas (C6, C7) -/

/-- The leaf `SlotDir` pushed by `scan_slot_dir` when a readable `auth.json`
is found. -/
def leaf_slot_dir (j : AuthDotJson) (comps : List String) (seen : List String) : SlotDir :=
  { id := (ensure_unique_slot_id (make_slot_id_slug comps) seen).1,
    label := some (derive_label_from_auth j comps),
    auth := some j, components := comps }

theorem scan_slot_dir_eq (name : String) (authFile : Option (Option AuthDotJson))
    (children : List FsTree) (comps : List String) (depth : Nat) (seen : List String) :
    scan_slot_dir (FsTree.dir name authFile children) comps depth seen =
      if MAX_SLOT_DEPTH < depth then (seen, [])
      else
        match authFile with
        | some (some j) =>
          ((ensure_unique_slot_id (make_slot_id_slug comps) seen).2,
           [leaf_slot_dir j comps seen])
        | some none => (seen, [])
        | none =>
          if depth = MAX_SLOT_DEPTH then (seen, [])
          else scan_slot_children children comps depth seen := rfl

theorem scan_slot_children_nil (comps : List String) (depth : Nat) (seen : List String) :
    scan_slot_children [] comps depth seen = (seen, []) := rfl

theorem scan_slot_children_cons (t : FsTree) (rest : List FsTree) (comps : List String)
    (depth : Nat) (seen : List String) :
    scan_slot_children (t :: rest) comps depth seen =
      ((scan_slot_children rest comps depth
          (scan_slot_dir t (comps ++ [t.name]) (depth + 1) seen).1).1,
       (scan_slot_dir t (comps ++ [t.name]) (depth + 1) seen).2 ++
         (scan_slot_children rest comps depth
           (scan_slot_dir t (comps ++ [t.name]) (depth + 1) seen).1).2) := rfl

theorem scan_slot_root_nil (seen : List String) :
    scan_slot_root [] seen = (seen, []) := rfl

theorem scan_slot_root_cons (t : FsTree) (rest : List FsTree) (seen : List String) :
    scan_slot_root (t :: rest) seen =
      if startsWithSlot t.name then
        ((scan_slot_root rest (scan_slot_dir t [t.name] 0 seen).1).1,
         (scan_slot_dir t [t.name] 0 seen).2 ++
           (scan_slot_root rest (scan_slot_dir t [t.name] 0 seen).1).2)
      else scan_slot_root rest seen := rfl

theorem scan_slot_dir_spec : ∀ (n : Nat) (t : FsTree), sizeOf t ≤ n →
    ∀ (comps : List String) (depth : Nat) (seen : List String) (s : SlotDir),
      s ∈ (scan_slot_dir t comps depth seen).2 →
      comps <+: s.components ∧
      s.components.length ≤ comps.length + (MAX_SLOT_DEPTH - depth) ∧
      ∃ seen', s.id = (ensure_unique_slot_id (make_slot_id_slug s.components) seen').1 := by
  intro n
  induction n with
  | zero =>
    intro t ht
    obtain ⟨name, authFile, children⟩ := t
    simp at ht
  | succ n ih =>
    intro t ht comps depth seen s hs
    obtain ⟨name, authFile, children⟩ := t
    rw [scan_slot_dir_eq] at hs
    by_cases hdep : MAX_SLOT_DEPTH < depth
    · rw [if_pos hdep] at hs
      simp at hs
    rw [if_neg hdep] at hs
    rcases authFile with _ | (_ | j)
    · by_cases heq : depth = MAX_SLOT_DEPTH
      · rw [if_pos heq] at hs
        simp at hs
      · rw [if_neg heq] at hs
        have hlt : depth < MAX_SLOT_DEPTH := lt_of_le_of_ne (not_lt.mp hdep) heq
        have hsz : ∀ c ∈ children, sizeOf c ≤ n := by
          intro c hc
          have h1 := List.sizeOf_lt_of_mem hc
          have h2 : sizeOf (FsTree.dir name none children) ≤ n + 1 := ht
          simp at h2
          omega
        revert hs
        suffices haux : ∀ (cs : List FsTree), (∀ c ∈ cs, sizeOf c ≤ n) →
            ∀ (seen2 : List String),
            s ∈ (scan_slot_children cs comps depth seen2).2 →
            comps <+: s.components ∧
            s.components.length ≤ comps.length + (MAX_SLOT_DEPTH - depth) ∧
            ∃ seen', s.id = (ensure_unique_slot_id (make_slot_id_slug s.components)
              seen').1 by
          intro hs
          exact haux children hsz seen hs
        intro cs
        induction cs with
        | nil =>
          intro _ seen2 hs2
          rw [scan_slot_children_nil] at hs2
          simp at hs2
        | cons c rest ihc =>
          intro hsz2 seen2 hs2
          rw [scan_slot_children_cons] at hs2
          rcases List.mem_append.mp hs2 with hh | hh
          · obtain ⟨hpre, hlen, hid⟩ :=
              ih c (hsz2 c (by simp)) (comps ++ [c.name]) (depth + 1) seen2 s hh
            refine ⟨(List.prefix_append comps [c.name]).trans hpre, ?_, hid⟩
            have hl : (comps ++ [c.name]).length = comps.length + 1 := by simp
            rw [hl] at hlen
            omega
          · exact ihc (fun c' hc' => hsz2 c' (by simp [hc'])) _ hh
    · simp at hs
    · replace hs : s ∈ [leaf_slot_dir j comps seen] := hs
      rw [List.mem_singleton] at hs
      subst hs
      exact ⟨List.prefix_refl _, Nat.le_add_right _ _, seen, rfl⟩

theorem scan_slot_root_spec : ∀ (children : List FsTree) (seen : List String) (s : SlotDir),
    s ∈ (scan_slot_root children seen).2 →
    (∃ t ∈ children, startsWithSlot t.name = true ∧ [t.name] <+: s.components) ∧
    1 ≤ s.components.length ∧ s.components.length ≤ MAX_SLOT_DEPTH + 1 ∧
    ∃ seen', s.id = (ensure_unique_slot_id (make_slot_id_slug s.components) seen').1 := by
  intro children
  induction children with
  | nil =>
    intro seen s hs
    rw [scan_slot_root_nil] at hs
    simp at hs
  | cons t rest ih =>
    intro seen s hs
    rw [scan_slot_root_cons] at hs
    by_cases hslot : startsWithSlot t.name = true
    · rw [if_pos hslot] at hs
      rcases List.mem_append.mp hs with hh | hh
      · obtain ⟨hpre, hlen, hid⟩ :=
          scan_slot_dir_spec (sizeOf t) t le_rfl [t.name] 0 seen s hh
        refine ⟨⟨t, by simp, hslot, hpre⟩, ?_, ?_, hid⟩
        · have := hpre.length_le
          simpa using this
        · simpa [Nat.add_comm] using hlen
      · obtain ⟨⟨t', ht', hp⟩, h1, h2, hid⟩ := ih _ s hh
        exact ⟨⟨t', by simp [ht'], hp⟩, h1, h2, hid⟩
    · rw [if_neg hslot] at hs
      obtain ⟨⟨t', ht', hp⟩, h1, h2, hid⟩ := ih _ s hs
      exact ⟨⟨t', by simp [ht'], hp⟩, h1, h2, hid⟩

/-- A credential file used by the discovery counterexample. -/
def cx_auth : AuthDotJson :=
  { openai_api_key := some "sk", tokens := none, last_refresh := none }

/-- A root child "slotx" containing a non-slot-named subdirectory "sub" whose
child "deep" holds the credential file: three levels below the root. -/
def cx_tree : FsTree :=
  FsTree.dir "slotx" none
    [FsTree.dir "sub" none [FsTree.dir "deep" (some (some cx_auth)) []]]

/-- The slot discovery yields for `cx_tree`. -/
def cx_slot : SlotDir :=
  { id := "slot-slotx-sub-deep", label := some "Slot slotx / sub / deep",
    auth := some cx_auth, components := ["slotx", "sub", "deep"] }

/-- C7 counterexample: discovery finds a credential file in
`slotx/sub/deep` — three levels below the root, through subdirectories
("sub", "deep") that do not carry the "slot" prefix — so neither "only
slot-prefixed directories are visited" nor "nothing deeper than 2 levels
below the root is discovered" holds as claimed. -/
theorem slot_scan_counterexample :
    (scan_slot_dirs [cx_tree]).map (fun s => s.components) = [["slotx", "sub", "deep"]] ∧
    startsWithSlot "sub" = false ∧ startsWithSlot "deep" = false := by
  decide

/-- C7 amended: the case-insensitive "slot" prefix filter applies only to the
immediate children of each scan root; below a matching child every
subdirectory is visited regardless of name, with the depth counter starting
at 0 for the root's child and capped at `MAX_SLOT_DEPTH = 2`, so discovered
credential files lie 1 to 3 levels below the root (components of length 1 to
3, first component slot-prefixed); a directory holding a readable credential
file is a leaf (its children are not scanned), and a credential-free
directory at the depth cap contributes nothing. -/
theorem slot_scan_spec :
    (∀ (rootChildren : List FsTree) (s : SlotDir), s ∈ scan_slot_dirs rootChildren →
      (∃ t ∈ rootChildren, startsWithSlot t.name = true ∧ [t.name] <+: s.components) ∧
      1 ≤ s.components.length ∧ s.components.length ≤ MAX_SLOT_DEPTH + 1) ∧
    (∀ (rootChildren : List FsTree) (seen : List String),
      scan_slot_root rootChildren seen =
        scan_slot_root (rootChildren.filter (fun t => startsWithSlot t.name)) seen) ∧
    (∀ (name : String) (j : AuthDotJson) (children : List FsTree)
        (comps : List String) (depth : Nat) (seen : List String),
      scan_slot_dir (FsTree.dir name (some (some j)) children) comps depth seen =
        scan_slot_dir (FsTree.dir name (some (some j)) []) comps depth seen) ∧
    (∀ (name : String) (children : List FsTree) (comps : List String)
        (seen : List String),
      scan_slot_dir (FsTree.dir name none children) comps MAX_SLOT_DEPTH seen =
        (seen, [])) := by
  refine ⟨?_, ?_, fun _ _ _ _ _ _ => rfl, fun _ _ _ _ => rfl⟩
  · intro rootChildren s hs
    obtain ⟨hmem, h1, h2, -⟩ := scan_slot_root_spec rootChildren [] s hs
    exact ⟨hmem, h1, h2⟩
  · intro rootChildren
    induction rootChildren with
    | nil => intro seen; rfl
    | cons t rest ih =>
      intro seen
      by_cases h : startsWithSlot t.name = true
      · have hf : List.filter (fun t => startsWithSlot t.name) (t :: rest) =
            t :: List.filter (fun t => startsWithSlot t.name) rest := by
          simp [List.filter_cons, h]
        rw [hf, scan_slot_root_cons, scan_slot_root_cons, if_pos h, if_pos h, ih]
      · have hf : List.filter (fun t => startsWithSlot t.name) (t :: rest) =
            List.filter (fun t => startsWithSlot t.name) rest := by
          simp [List.filter_cons, h]
        rw [hf, scan_slot_root_cons, if_neg h, ih]

/-- Closed witness for `slot_scan_spec`. -/
theorem slot_scan_spec_witness :
    (∃ t ∈ [cx_tree], startsWithSlot t.name = true ∧ [t.name] <+: cx_slot.components) ∧
    1 ≤ cx_slot.components.length ∧ cx_slot.components.length ≤ MAX_SLOT_DEPTH + 1 :=
  slot_scan_spec.1 [cx_tree] cx_slot (by decide)

/-! ## Sort-order lemmas and the default slot (C6) -/

theorem chars_lt_irrefl : ∀ (l : List Char), chars_lt l l = false := by
  intro l
  induction l with
  | nil => rfl
  | cons c cs ih =>
    rw [chars_lt, if_neg (lt_irrefl c.toNat), if_neg (lt_irrefl c.toNat)]
    exact ih

theorem chars_lt_asymm : ∀ (l m : List Char), chars_lt l m = true → chars_lt m l = false := by
  intro l
  induction l with
  | nil =>
    intro m h
    cases m with
    | nil => exact absurd h (by rw [chars_lt]; simp)
    | cons d ds => rfl
  | cons c cs ih =>
    intro m h
    cases m with
    | nil => exact absurd h (by rw [chars_lt]; simp)
    | cons d ds =>
      rw [chars_lt] at h
      rw [chars_lt]
      by_cases h1 : c.toNat < d.toNat
      · rw [if_neg (by omega), if_pos h1]
      · rw [if_neg h1] at h
        by_cases h2 : d.toNat < c.toNat
        · rw [if_pos h2] at h
          exact absurd h (by simp)
        · rw [if_neg h2] at h
          rw [if_neg h2, if_neg h1]
          exact ih ds h

theorem key_lt_irrefl (k : Bool × List Char × List Char) : key_lt k k = false := by
  simp [key_lt, bool_lt, chars_lt_irrefl]

theorem pair_lt_asymm (l1 m1 l2 m2 : List Char)
    (h : (chars_lt l1 l2 || (decide (l1 = l2) && chars_lt m1 m2)) = true) :
    (chars_lt l2 l1 || (decide (l2 = l1) && chars_lt m2 m1)) = false := by
  simp only [Bool.or_eq_true, Bool.and_eq_true, decide_eq_true_eq] at h
  rcases h with h | ⟨he, hm⟩
  · have h2 := chars_lt_asymm _ _ h
    have hne : ¬(l2 = l1) := by
      intro he
      rw [he, chars_lt_irrefl] at h
      exact absurd h (by simp)
    simp [h2, hne]
  · subst he
    simp [chars_lt_irrefl, chars_lt_asymm _ _ hm]

theorem key_lt_asymm (k1 k2 : Bool × List Char × List Char)
    (h : key_lt k1 k2 = true) : key_lt k2 k1 = false := by
  obtain ⟨b1, l1, m1⟩ := k1
  obtain ⟨b2, l2, m2⟩ := k2
  rw [key_lt] at h
  rw [key_lt]
  cases b1 <;> cases b2
  · have h' : (chars_lt l1 l2 || (decide (l1 = l2) && chars_lt m1 m2)) = true := by
      simpa [bool_lt] using h
    simpa [bool_lt] using pair_lt_asymm l1 m1 l2 m2 h'
  · simp [bool_lt]
  · simp [bool_lt] at h
  · have h' : (chars_lt l1 l2 || (decide (l1 = l2) && chars_lt m1 m2)) = true := by
      simpa [bool_lt] using h
    simpa [bool_lt] using pair_lt_asymm l1 m1 l2 m2 h'

theorem slot_le_refl (s : AccountSlot) : slot_le s s = true := by
  simp [slot_le]

theorem slot_le_of_key_lt (a b : AccountSlot)
    (h : key_lt (slot_key a) (slot_key b) = true) : slot_le a b = true := by
  simp [slot_le, h]

theorem slot_le_false_of_key_lt (a b : AccountSlot)
    (h : key_lt (slot_key a) (slot_key b) = true) : slot_le b a = false := by
  have h1 := key_lt_asymm _ _ h
  have h2 : ¬(slot_key b = slot_key a) := by
    intro he
    rw [he, key_lt_irrefl] at h
    exact absurd h (by simp)
  simp [slot_le, h1, h2]

theorem mem_ordered_insert (s x : AccountSlot) : ∀ (l : List AccountSlot),
    x ∈ ordered_insert_slot s l ↔ x = s ∨ x ∈ l := by
  intro l
  induction l with
  | nil => simp [ordered_insert_slot]
  | cons y ys ih =>
    rw [ordered_insert_slot]
    by_cases h : slot_le s y = true
    · rw [if_pos h]
      simp
    · rw [if_neg h]
      simp only [List.mem_cons, ih]
      tauto

theorem mem_sort_slots (x : AccountSlot) : ∀ (l : List AccountSlot),
    x ∈ sort_slots l ↔ x ∈ l := by
  intro l
  induction l with
  | nil => simp [sort_slots]
  | cons y ys ih =>
    rw [sort_slots, mem_ordered_insert]
    simp [ih]

theorem sort_slots_head (d : AccountSlot) : ∀ (l : List AccountSlot), d ∈ l →
    (∀ x ∈ l, x ≠ d → key_lt (slot_key d) (slot_key x) = true) →
    (sort_slots l).head? = some d := by
  intro l
  induction l with
  | nil => intro h; simp at h
  | cons a l' ih =>
    intro hmem hmin
    rw [sort_slots]
    by_cases ha : a = d
    · subst ha
      rcases hs : sort_slots l' with _ | ⟨y, ys⟩
      · rw [ordered_insert_slot]
        rfl
      · have hy : y ∈ l' := (mem_sort_slots y l').mp (by rw [hs]; simp)
        have hle : slot_le a y = true := by
          by_cases hyd : y = a
          · rw [hyd]
            exact slot_le_refl a
          · exact slot_le_of_key_lt a y (hmin y (by simp [hy]) hyd)
        rw [ordered_insert_slot, if_pos hle]
        rfl
    · have hd : d ∈ l' := by
        rcases List.mem_cons.mp hmem with h | h
        · exact absurd h.symm ha
        · exact h
      have hih := ih hd (fun x hx hxd => hmin x (by simp [hx]) hxd)
      rcases hs : sort_slots l' with _ | ⟨y, ys⟩
      · rw [hs] at hih
        simp at hih
      · rw [hs] at hih
        have hyd : y = d := by simpa using hih
        subst hyd
        have hlt := hmin a (by simp) ha
        have hf : slot_le a y = false := slot_le_false_of_key_lt y a hlt
        rw [ordered_insert_slot, if_neg (by simp [hf])]
        rfl

theorem hydrate_step_mem (code_home : List String) (acc : List SlotRegistryEntry)
    (d : SlotDir) (e : SlotRegistryEntry) (he : e ∈ hydrate_step code_home acc d) :
    e ∈ acc ∨ e.id = d.id := by
  rw [hydrate_step] at he
  split at he
  · exact Or.inl he
  · split at he
    · exact Or.inl he
    · rcases List.mem_append.mp he with h | h
      · exact Or.inl h
      · right
        rw [List.mem_singleton] at h
        rw [h]

theorem hydrate_mem (code_home : List String) : ∀ (discovered : List SlotDir)
    (slots : List SlotRegistryEntry) (e : SlotRegistryEntry),
    e ∈ hydrate_from_filesystem slots code_home discovered →
    e ∈ slots ∨ ∃ s ∈ discovered, e.id = s.id := by
  intro discovered
  induction discovered with
  | nil => intro slots e he; exact Or.inl he
  | cons d rest ih =>
    intro slots e he
    rw [hydrate_from_filesystem, List.foldl_cons] at he
    have he' : e ∈ hydrate_from_filesystem (hydrate_step code_home slots d) code_home rest :=
      he
    rcases ih _ e he' with hin | ⟨s, hs, hid⟩
    · rcases hydrate_step_mem code_home slots d e hin with h | h
      · exact Or.inl h
      · exact Or.inr ⟨d, by simp, h⟩
    · exact Or.inr ⟨s, by simp [hs], hid⟩

/-- The registry entry that `add_slot [] ["home"] [] _ (some "Default")`
creates: it reuses the reserved default-slot identifier. -/
def impostor_entry : SlotRegistryEntry :=
  { id := "slot-default", label := some "Default",
    path := some (PathSpec.rel ["slot-default"]) }

/-- C6 counterexample: `add_slot` with the label "Default" mints the registry
id "slot-default" (nothing reserves it outside discovery), and `list_slots`
over that reachable registry sorts the impostor — whose path is
`home/slot-default`, not the installation root — before the synthetic
default slot, refuting "the default slot ... sorts first" as a universal
statement. -/
theorem default_slot_counterexample :
    ((add_slot [] ["home"] [] (fun _ => false) (some "Default")).1 = [impostor_entry]) ∧
    ((list_slots [impostor_entry] ["home"] []
        (fun _ => false)).2.map (fun s => (s.path, s.is_default)) =
      [(["home", "slot-default"], false), (["home"], true)]) := by
  exact ⟨by decide, by decide⟩

/-- C6 amended: provided no registry entry carries the reserved id
"slot-default" (a condition dependent state, since `add_slot` with a label
sanitizing to "default" can mint it), `list_slots` always contains the
synthetic default slot — id "slot-default", path the installation root,
`is_default` set — as its first element; `remove_slot` and `rename_slot` on
"slot-default" return `none` leaving the registry untouched; and discovery
never assigns "slot-default" to a scanned directory. -/
theorem default_slot_spec (registry : List SlotRegistryEntry) (code_home : List String)
    (rootChildren : List FsTree) (authAt : List String → Bool) (lbl : Option String)
    (hreg : ∀ e ∈ registry, e.id ≠ DEFAULT_SLOT_ID) :
    (default_slot authAt code_home ∈ (list_slots registry code_home rootChildren authAt).2 ∧
      (default_slot authAt code_home).id = DEFAULT_SLOT_ID ∧
      (default_slot authAt code_home).path = code_home ∧
      (default_slot authAt code_home).is_default = true) ∧
    (list_slots registry code_home rootChildren authAt).2.head? =
      some (default_slot authAt code_home) ∧
    remove_slot registry code_home authAt DEFAULT_SLOT_ID = (registry, none) ∧
    rename_slot registry code_home authAt DEFAULT_SLOT_ID lbl = (registry, none) ∧
    (∀ s ∈ scan_slot_dirs rootChildren, s.id ≠ DEFAULT_SLOT_ID) := by
  have hscan : ∀ s ∈ scan_slot_dirs rootChildren, s.id ≠ DEFAULT_SLOT_ID := by
    intro s hs
    obtain ⟨⟨t, ht, hslot, hpre⟩, -, -, seen', hid⟩ :=
      scan_slot_root_spec rootChildren [] s hs
    obtain ⟨ext, hcomps⟩ := hpre
    have hne : ¬(String.mk s.id.data = DEFAULT_SLOT_ID) := by
      apply slotslot_ne_default
      obtain ⟨u1, hu1⟩ := make_slot_id_slug_prefix t.name ext hslot
      obtain ⟨u2, hu2⟩ := ensure_unique_prefix (make_slot_id_slug (t.name :: ext)) seen'
      refine ⟨u1 ++ u2, ?_⟩
      rw [hid, ← hcomps, List.singleton_append, hu2, hu1]
      rfl
    exact fun he => hne he
  have hhyd : ∀ e ∈ hydrate_from_filesystem registry code_home (scan_slot_dirs rootChildren),
      e.id ≠ DEFAULT_SLOT_ID := by
    intro e he
    rcases hydrate_mem code_home _ registry e he with h | ⟨s, hs, hid⟩
    · exact hreg e h
    · rw [hid]
      exact hscan s hs
  have hmemL : default_slot authAt code_home ∈
      ((hydrate_from_filesystem registry code_home (scan_slot_dirs rootChildren)).map
        (fun e => AccountSlot.make authAt e.id e.label (resolve_entry_path e code_home) false)
        ++ [default_slot authAt code_home]) := by
    simp
  have hmin : ∀ x ∈ ((hydrate_from_filesystem registry code_home
        (scan_slot_dirs rootChildren)).map
        (fun e => AccountSlot.make authAt e.id e.label (resolve_entry_path e code_home) false)
        ++ [default_slot authAt code_home]),
      x ≠ default_slot authAt code_home →
      key_lt (slot_key (default_slot authAt code_home)) (slot_key x) = true := by
    intro x hx hne
    rcases List.mem_append.mp hx with hx1 | hx2
    · obtain ⟨e, he, rfl⟩ := List.mem_map.mp hx1
      have hne2 : e.id ≠ DEFAULT_SLOT_ID := hhyd e he
      have h1 : (slot_key (default_slot authAt code_home)).1 = false := by
        simp [slot_key, default_slot, AccountSlot.make]
      have h2 : (slot_key (AccountSlot.make authAt e.id e.label
          (resolve_entry_path e code_home) false)).1 = true := by
        simp [slot_key, AccountSlot.make, hne2]
      rw [key_lt, h1, h2]
      simp [bool_lt]
    · exact absurd (by simpa using hx2) hne
  have hhead := sort_slots_head (default_slot authAt code_home) _ hmemL hmin
  refine ⟨⟨?_, rfl, rfl, rfl⟩, hhead, ?_, ?_, hscan⟩
  · exact (mem_sort_slots _ _).mpr hmemL
  · rw [remove_slot, if_pos rfl]
  · rw [rename_slot, if_pos rfl]

/-- Closed witness for `default_slot_spec`. -/
theorem default_slot_spec_witness :
    (list_slots [] ["home"] [] (fun _ => false)).2.head? =
      some (default_slot (fun _ => false) ["home"]) ∧
    remove_slot [] ["home"] (fun _ => false) DEFAULT_SLOT_ID = ([], none) := by
  have h := default_slot_spec [] ["home"] [] (fun _ => false) none (by simp)
  exact ⟨h.2.1, h.2.2.1⟩

/-! ## Smooth weighted round-robin alternation (C3) -/

theorem assocFind_cons_self {α : Type} (k : String) (v : α) (rest : List (String × α)) :
    assocFind ((k, v) :: rest) k = some v := by
  simp [assocFind, List.find?]

theorem assocFind_cons_ne {α : Type} (k k' : String) (v : α) (rest : List (String × α))
    (h : k ≠ k') : assocFind ((k, v) :: rest) k' = assocFind rest k' := by
  simp [assocFind, List.find?, h]

theorem assocInsert_cons_self {α : Type} (k : String) (v v' : α)
    (rest : List (String × α)) : assocInsert ((k, v) :: rest) k v' = (k, v') :: rest := by
  simp [assocInsert]

theorem assocInsert_cons_ne {α : Type} (k k' : String) (v v' : α)
    (rest : List (String × α)) (h : k ≠ k') :
    assocInsert ((k, v) :: rest) k' v' = (k, v) :: assocInsert rest k' v' := by
  simp [assocInsert, h]

/-- The candidate row `next_account` builds for one eligible account. -/
def candOf (snaps : String → Option StoredRateLimitSnapshot) (now : Int)
    (a : StoredAccount) : SlotCandidate :=
  { selection :=
      { account_id := a.id, label := a.label, plan := plan_for_account a,
        snapshot := snaps a.id },
    weight := slot_weight snaps now a.id,
    identity := slot_identity a }

theorem candidate_slots_two (a b : StoredAccount) (now : Int)
    (snaps : String → Option StoredRateLimitSnapshot)
    (hca : has_credentials a = true) (hcb : has_credentials b = true) :
    candidate_slots [] now [a, b] snaps = [candOf snaps now a, candOf snaps now b] := by
  have helig : eligible_accounts [] now [a, b] = [a, b] := by
    simp [eligible_accounts, is_blocked, assocFind, hca, hcb]
  rw [candidate_slots, helig]
  rfl

theorem totals_two (a b : StoredAccount) (now : Int)
    (snaps : String → Option StoredRateLimitSnapshot)
    (hid : slot_identity a ≠ slot_identity b) :
    totals_by_identity [candOf snaps now a, candOf snaps now b] =
      [(slot_identity a, slot_weight snaps now a.id),
       (slot_identity b, slot_weight snaps now b.id)] := by
  rw [totals_by_identity]
  simp only [List.foldl_cons, List.foldl_nil]
  show bump_total (bump_total [] (slot_identity a) (slot_weight snaps now a.id))
      (slot_identity b) (slot_weight snaps now b.id) = _
  rw [bump_total, bump_total, if_neg hid]
  rfl

theorem pick_step_eq (totals : List (String × ℚ)) (weights : List (String × WeightedState))
    (best : Option (String × ℚ)) (ident : String) (wsum : ℚ)
    (hfind : assocFind totals ident = some wsum) :
    pick_step totals (weights, best) ident =
      (assocInsert weights ident
        { weight := wsum,
          current := ((assocFind weights ident).getD
            { weight := wsum, current := 0 }).current + wsum },
       match best with
       | none => some (ident,
           ((assocFind weights ident).getD { weight := wsum, current := 0 }).current + wsum)
       | some (bi, bc) =>
         if bc < ((assocFind weights ident).getD
             { weight := wsum, current := 0 }).current + wsum
         then some (ident,
           ((assocFind weights ident).getD { weight := wsum, current := 0 }).current + wsum)
         else some (bi, bc)) := by
  rw [pick_step, hfind]

theorem swrr_pick_two_gen (j1 j2 : String) (hne12 : j1 ≠ j2)
    (x1 x2 c1 c2 t1 t2 S : ℚ) (T : List (String × ℚ))
    (hf1 : assocFind T j1 = some t1) (hf2 : assocFind T j2 = some t2)
    (hS : (T.map (fun p => p.2)).sum = S)
    (W : List (String × WeightedState))
    (hW : W = [(j1, { weight := x1, current := c1 }), (j2, { weight := x2, current := c2 })]) :
    swrr_pick W T [j1, j2] =
      if c1 + t1 < c2 + t2
      then ([(j1, { weight := t1, current := c1 + t1 }),
             (j2, { weight := t2, current := c2 + t2 - S })], some j2)
      else ([(j1, { weight := t1, current := c1 + t1 - S }),
             (j2, { weight := t2, current := c2 + t2 })], some j1) := by
  subst hW
  rw [swrr_pick]
  simp only [List.foldl_cons, List.foldl_nil]
  rw [pick_step_eq _ _ _ _ t1 hf1, assocFind_cons_self, assocInsert_cons_self]
  rw [pick_step_eq _ _ _ _ t2 hf2, assocFind_cons_ne _ _ _ _ hne12, assocFind_cons_self,
    assocInsert_cons_ne _ _ _ _ _ hne12, assocInsert_cons_self]
  simp only [Option.getD_some]
  by_cases hc : c1 + t1 < c2 + t2
  · rw [if_pos hc, if_pos hc]
    show (_, some j2) = _
    rw [assocFind_cons_ne _ _ _ _ hne12, assocFind_cons_self]
    simp only [hS]
    rw [assocInsert_cons_ne _ _ _ _ _ hne12, assocInsert_cons_self]
  · rw [if_neg hc, if_neg hc]
    show (_, some j1) = _
    rw [assocFind_cons_self]
    simp only [hS]
    rw [assocInsert_cons_self]

theorem swrr_pick_two_gen_cross (j1 j2 : String) (hne12 : j1 ≠ j2)
    (x1 x2 c1 c2 t1 t2 S : ℚ) (T : List (String × ℚ))
    (hf1 : assocFind T j1 = some t1) (hf2 : assocFind T j2 = some t2)
    (hS : (T.map (fun p => p.2)).sum = S)
    (W : List (String × WeightedState))
    (hW : W = [(j2, { weight := x2, current := c2 }), (j1, { weight := x1, current := c1 })]) :
    swrr_pick W T [j1, j2] =
      if c1 + t1 < c2 + t2
      then ([(j2, { weight := t2, current := c2 + t2 - S }),
             (j1, { weight := t1, current := c1 + t1 })], some j2)
      else ([(j2, { weight := t2, current := c2 + t2 }),
             (j1, { weight := t1, current := c1 + t1 - S })], some j1) := by
  subst hW
  rw [swrr_pick]
  simp only [List.foldl_cons, List.foldl_nil]
  rw [pick_step_eq _ _ _ _ t1 hf1, assocFind_cons_ne _ _ _ _ (Ne.symm hne12),
    assocFind_cons_self, assocInsert_cons_ne _ _ _ _ _ (Ne.symm hne12), assocInsert_cons_self]
  rw [pick_step_eq _ _ _ _ t2 hf2, assocFind_cons_self, assocInsert_cons_self]
  simp only [Option.getD_some]
  by_cases hc : c1 + t1 < c2 + t2
  · rw [if_pos hc, if_pos hc]
    show (_, some j2) = _
    rw [assocFind_cons_self]
    simp only [hS]
    rw [assocInsert_cons_self]
  · rw [if_neg hc, if_neg hc]
    show (_, some j1) = _
    rw [assocFind_cons_ne _ _ _ _ (Ne.symm hne12), assocFind_cons_self]
    simp only [hS]
    rw [assocInsert_cons_ne _ _ _ _ _ (Ne.symm hne12), assocInsert_cons_self]

theorem swrr_pick_two_empty (j1 j2 : String) (hne12 : j1 ≠ j2)
    (t1 t2 S : ℚ) (T : List (String × ℚ))
    (hf1 : assocFind T j1 = some t1) (hf2 : assocFind T j2 = some t2)
    (hS : (T.map (fun p => p.2)).sum = S) :
    swrr_pick [] T [j1, j2] =
      if 0 + t1 < 0 + t2
      then ([(j1, { weight := t1, current := 0 + t1 }),
             (j2, { weight := t2, current := 0 + t2 - S })], some j2)
      else ([(j1, { weight := t1, current := 0 + t1 - S }),
             (j2, { weight := t2, current := 0 + t2 })], some j1) := by
  rw [swrr_pick]
  simp only [List.foldl_cons, List.foldl_nil]
  rw [pick_step_eq _ _ _ _ t1 hf1]
  simp only [assocFind, List.find?, Option.map_none', Option.getD_none]
  rw [show (assocInsert ([] : List (String × WeightedState)) j1
      { weight := t1, current := 0 + t1 }) = [(j1, { weight := t1, current := 0 + t1 })]
    from rfl]
  rw [pick_step_eq _ _ _ _ t2 hf2, assocFind_cons_ne _ _ _ _ hne12]
  simp only [assocFind, List.find?, Option.map_none', Option.getD_none]
  rw [assocInsert_cons_ne _ _ _ _ _ hne12]
  rw [show (assocInsert ([] : List (String × WeightedState)) j2
      { weight := t2, current := 0 + t2 }) = [(j2, { weight := t2, current := 0 + t2 })]
    from rfl]
  by_cases hc : 0 + t1 < 0 + t2
  · rw [if_pos hc, if_pos hc]
    show (_, some j2) = _
    have hd1 : (decide (j1 = j2)) = false := by simp [hne12]
    have hd2 : (decide (j2 = j2)) = true := by simp
    simp only [List.find?, hd1, hd2, decide_True, Option.map_some', hS]
    rw [assocInsert_cons_ne _ _ _ _ _ hne12, assocInsert_cons_self]
  · rw [if_neg hc, if_neg hc]
    show (_, some j1) = _
    have hd1 : (decide (j1 = j1)) = true := by simp
    simp only [List.find?, hd1, decide_True, Option.map_some', hS]
    rw [assocInsert_cons_self]

theorem run_picks_nil (now : Int) (accounts : List StoredAccount)
    (snaps : String → Option StoredRateLimitSnapshot) (st : SchedulerState) :
    run_picks now accounts snaps st [] = (st, []) := rfl

theorem run_picks_cons (now : Int) (accounts : List StoredAccount)
    (snaps : String → Option StoredRateLimitSnapshot) (st : SchedulerState)
    (o : List String) (rest : List (List String)) :
    run_picks now accounts snaps st (o :: rest) =
      ((run_picks now accounts snaps (next_account st now accounts snaps o).1 rest).1,
       ((next_account st now accounts snaps o).2.map (fun s => s.account_id)) ::
         (run_picks now accounts snaps (next_account st now accounts snaps o).1 rest).2) := rfl

theorem next_account_two (a b : StoredAccount) (now : Int)
    (snaps : String → Option StoredRateLimitSnapshot)
    (W W2 : List (String × WeightedState)) (o : List String) (x : StoredAccount)
    (hca : has_credentials a = true) (hcb : has_credentials b = true)
    (hid : slot_identity a ≠ slot_identity b)
    (hWf : W.filter (fun p => ([slot_identity a, slot_identity b].contains p.1)) = W)
    (hx : x = a ∨ x = b)
    (hsw : swrr_pick W [(slot_identity a, slot_weight snaps now a.id),
        (slot_identity b, slot_weight snaps now b.id)] o = (W2, some (slot_identity x))) :
    next_account { cooldowns := [], weights := W } now [a, b] snaps o =
      ({ cooldowns := [], weights := W2 }, some (candOf snaps now x).selection) := by
  have hpos : ¬ (slot_weight snaps now a.id + (slot_weight snaps now b.id + 0) ≤ 0) := by
    have h1 : MIN_EFFECTIVE_WEIGHT ≤ slot_weight snaps now a.id := by
      simp only [slot_weight]; exact le_max_right _ _
    have h2 : MIN_EFFECTIVE_WEIGHT ≤ slot_weight snaps now b.id := by
      simp only [slot_weight]; exact le_max_right _ _
    have h0 : (0:ℚ) < MIN_EFFECTIVE_WEIGHT := by norm_num [MIN_EFFECTIVE_WEIGHT]
    intro hle
    linarith
  simp only [next_account]
  rw [show prune_expired_cooldowns ([] : List (String × Int)) now = [] from rfl]
  rw [candidate_slots_two a b now snaps hca hcb, totals_two a b now snaps hid]
  simp only [List.map_cons, List.map_nil, List.sum_cons, List.sum_nil]
  rw [hWf, if_neg hpos, hsw]
  rcases hx with rfl | rfl
  · simp [candOf, max_by_candidate, Ne.symm hid]
  · simp [candOf, max_by_candidate, hid]

/-- The round-robin state after an even number of picks over two equal-weight
identities, keyed in first-then-second order: both currents are back to 0. -/
def zstateAB (a b : StoredAccount) (snaps : String → Option StoredRateLimitSnapshot)
    (now : Int) : SchedulerState :=
  { cooldowns := [],
    weights := [(slot_identity a, { weight := slot_weight snaps now a.id, current := 0 }),
                (slot_identity b, { weight := slot_weight snaps now a.id, current := 0 })] }

/-- The same zero-current state keyed in the opposite insertion order. -/
def zstateBA (a b : StoredAccount) (snaps : String → Option StoredRateLimitSnapshot)
    (now : Int) : SchedulerState :=
  { cooldowns := [],
    weights := [(slot_identity b, { weight := slot_weight snaps now a.id, current := 0 }),
                (slot_identity a, { weight := slot_weight snaps now a.id, current := 0 })] }

theorem step_AB_ordAB (a b : StoredAccount) (now : Int)
    (snaps : String → Option StoredRateLimitSnapshot)
    (hca : has_credentials a = true) (hcb : has_credentials b = true)
    (hid : slot_identity a ≠ slot_identity b)
    (hw : slot_weight snaps now a.id = slot_weight snaps now b.id)
    (xa xb ca cb : ℚ) :
    next_account
        { cooldowns := [],
          weights := [(slot_identity a, { weight := xa, current := ca }),
                      (slot_identity b, { weight := xb, current := cb })] }
        now [a, b] snaps [slot_identity a, slot_identity b] =
      if ca < cb then
        ({ cooldowns := [],
           weights := [(slot_identity a, { weight := slot_weight snaps now a.id, current := ca + slot_weight snaps now a.id }),
             (slot_identity b, { weight := slot_weight snaps now a.id, current := cb - slot_weight snaps now a.id })] },
         some (candOf snaps now b).selection)
      else
        ({ cooldowns := [],
           weights := [(slot_identity a, { weight := slot_weight snaps now a.id, current := ca - slot_weight snaps now a.id }),
             (slot_identity b, { weight := slot_weight snaps now a.id, current := cb + slot_weight snaps now a.id })] },
         some (candOf snaps now a).selection) := by
  have hf1 : assocFind [(slot_identity a, slot_weight snaps now a.id),
      (slot_identity b, slot_weight snaps now b.id)] (slot_identity a) =
      some (slot_weight snaps now a.id) := assocFind_cons_self _ _ _
  have hf2 : assocFind [(slot_identity a, slot_weight snaps now a.id),
      (slot_identity b, slot_weight snaps now b.id)] (slot_identity b) =
      some (slot_weight snaps now a.id) := by
    rw [assocFind_cons_ne _ _ _ _ hid, assocFind_cons_self, hw]
  have hS : ((([(slot_identity a, slot_weight snaps now a.id),
      (slot_identity b, slot_weight snaps now b.id)]) : List (String × ℚ)).map
        (fun p => p.2)).sum = 2 * slot_weight snaps now a.id := by
    rw [← hw]
    show slot_weight snaps now a.id + (slot_weight snaps now a.id + 0) = _
    ring
  have hWf : ([(slot_identity a, { weight := xa, current := ca }),
      (slot_identity b, { weight := xb, current := cb })] :
        List (String × WeightedState)).filter
      (fun p => ([slot_identity a, slot_identity b].contains p.1)) =
      [(slot_identity a, { weight := xa, current := ca }),
       (slot_identity b, { weight := xb, current := cb })] := by
    simp
  by_cases hc : ca < cb
  · rw [if_pos hc]
    have hsw : swrr_pick
        [(slot_identity a, { weight := xa, current := ca }),
         (slot_identity b, { weight := xb, current := cb })]
        [(slot_identity a, slot_weight snaps now a.id),
         (slot_identity b, slot_weight snaps now b.id)]
        [slot_identity a, slot_identity b] =
        ([(slot_identity a, { weight := slot_weight snaps now a.id, current := ca + slot_weight snaps now a.id }),
          (slot_identity b, { weight := slot_weight snaps now a.id, current := cb - slot_weight snaps now a.id })], some (slot_identity b)) := by
      rw [swrr_pick_two_gen (slot_identity a) (slot_identity b) hid xa xb ca cb
        (slot_weight snaps now a.id) (slot_weight snaps now a.id)
        (2 * slot_weight snaps now a.id) _ hf1 hf2 hS _ rfl]
      rw [if_pos (add_lt_add_right hc (slot_weight snaps now a.id))]
      rw [show cb + slot_weight snaps now a.id - 2 * slot_weight snaps now a.id =
        cb - slot_weight snaps now a.id from by ring]
    exact next_account_two a b now snaps _ _ _ b hca hcb hid hWf (Or.inr rfl) hsw
  · rw [if_neg hc]
    have hsw : swrr_pick
        [(slot_identity a, { weight := xa, current := ca }),
         (slot_identity b, { weight := xb, current := cb })]
        [(slot_identity a, slot_weight snaps now a.id),
         (slot_identity b, slot_weight snaps now b.id)]
        [slot_identity a, slot_identity b] =
        ([(slot_identity a, { weight := slot_weight snaps now a.id, current := ca - slot_weight snaps now a.id }),
          (slot_identity b, { weight := slot_weight snaps now a.id, current := cb + slot_weight snaps now a.id })], some (slot_identity a)) := by
      rw [swrr_pick_two_gen (slot_identity a) (slot_identity b) hid xa xb ca cb
        (slot_weight snaps now a.id) (slot_weight snaps now a.id)
        (2 * slot_weight snaps now a.id) _ hf1 hf2 hS _ rfl]
      rw [if_neg (fun h => hc (lt_of_add_lt_add_right h))]
      rw [show ca + slot_weight snaps now a.id - 2 * slot_weight snaps now a.id =
        ca - slot_weight snaps now a.id from by ring]
    exact next_account_two a b now snaps _ _ _ a hca hcb hid hWf (Or.inl rfl) hsw

theorem step_AB_ordBA (a b : StoredAccount) (now : Int)
    (snaps : String → Option StoredRateLimitSnapshot)
    (hca : has_credentials a = true) (hcb : has_credentials b = true)
    (hid : slot_identity a ≠ slot_identity b)
    (hw : slot_weight snaps now a.id = slot_weight snaps now b.id)
    (xa xb ca cb : ℚ) :
    next_account
        { cooldowns := [],
          weights := [(slot_identity a, { weight := xa, current := ca }),
                      (slot_identity b, { weight := xb, current := cb })] }
        now [a, b] snaps [slot_identity b, slot_identity a] =
      if cb < ca then
        ({ cooldowns := [],
           weights := [(slot_identity a, { weight := slot_weight snaps now a.id, current := ca - slot_weight snaps now a.id }),
             (slot_identity b, { weight := slot_weight snaps now a.id, current := cb + slot_weight snaps now a.id })] },
         some (candOf snaps now a).selection)
      else
        ({ cooldowns := [],
           weights := [(slot_identity a, { weight := slot_weight snaps now a.id, current := ca + slot_weight snaps now a.id }),
             (slot_identity b, { weight := slot_weight snaps now a.id, current := cb - slot_weight snaps now a.id })] },
         some (candOf snaps now b).selection) := by
  have hf1 : assocFind [(slot_identity a, slot_weight snaps now a.id),
      (slot_identity b, slot_weight snaps now b.id)] (slot_identity b) =
      some (slot_weight snaps now a.id) := by
    rw [assocFind_cons_ne _ _ _ _ hid, assocFind_cons_self, hw]
  have hf2 : assocFind [(slot_identity a, slot_weight snaps now a.id),
      (slot_identity b, slot_weight snaps now b.id)] (slot_identity a) =
      some (slot_weight snaps now a.id) := assocFind_cons_self _ _ _
  have hS : ((([(slot_identity a, slot_weight snaps now a.id),
      (slot_identity b, slot_weight snaps now b.id)]) : List (String × ℚ)).map
        (fun p => p.2)).sum = 2 * slot_weight snaps now a.id := by
    rw [← hw]
    show slot_weight snaps now a.id + (slot_weight snaps now a.id + 0) = _
    ring
  have hWf : ([(slot_identity a, { weight := xa, current := ca }),
      (slot_identity b, { weight := xb, current := cb })] :
        List (String × WeightedState)).filter
      (fun p => ([slot_identity a, slot_identity b].contains p.1)) =
      [(slot_identity a, { weight := xa, current := ca }),
       (slot_identity b, { weight := xb, current := cb })] := by
    simp
  by_cases hc : cb < ca
  · rw [if_pos hc]
    have hsw : swrr_pick
        [(slot_identity a, { weight := xa, current := ca }),
         (slot_identity b, { weight := xb, current := cb })]
        [(slot_identity a, slot_weight snaps now a.id),
         (slot_identity b, slot_weight snaps now b.id)]
        [slot_identity b, slot_identity a] =
        ([(slot_identity a, { weight := slot_weight snaps now a.id, current := ca - slot_weight snaps now a.id }),
          (slot_identity b, { weight := slot_weight snaps now a.id, current := cb + slot_weight snaps now a.id })], some (slot_identity a)) := by
      rw [swrr_pick_two_gen_cross (slot_identity b) (slot_identity a) (Ne.symm hid) xb xa cb ca
        (slot_weight snaps now a.id) (slot_weight snaps now a.id)
        (2 * slot_weight snaps now a.id) _ hf1 hf2 hS _ rfl]
      rw [if_pos (add_lt_add_right hc (slot_weight snaps now a.id))]
      rw [show ca + slot_weight snaps now a.id - 2 * slot_weight snaps now a.id =
        ca - slot_weight snaps now a.id from by ring]
    exact next_account_two a b now snaps _ _ _ a hca hcb hid hWf (Or.inl rfl) hsw
  · rw [if_neg hc]
    have hsw : swrr_pick
        [(slot_identity a, { weight := xa, current := ca }),
         (slot_identity b, { weight := xb, current := cb })]
        [(slot_identity a, slot_weight snaps now a.id),
         (slot_identity b, slot_weight snaps now b.id)]
        [slot_identity b, slot_identity a] =
        ([(slot_identity a, { weight := slot_weight snaps now a.id, current := ca + slot_weight snaps now a.id }),
          (slot_identity b, { weight := slot_weight snaps now a.id, current := cb - slot_weight snaps now a.id })], some (slot_identity b)) := by
      rw [swrr_pick_two_gen_cross (slot_identity b) (slot_identity a) (Ne.symm hid) xb xa cb ca
        (slot_weight snaps now a.id) (slot_weight snaps now a.id)
        (2 * slot_weight snaps now a.id) _ hf1 hf2 hS _ rfl]
      rw [if_neg (fun h => hc (lt_of_add_lt_add_right h))]
      rw [show cb + slot_weight snaps now a.id - 2 * slot_weight snaps now a.id =
        cb - slot_weight snaps now a.id from by ring]
    exact next_account_two a b now snaps _ _ _ b hca hcb hid hWf (Or.inr rfl) hsw

theorem step_BA_ordBA (a b : StoredAccount) (now : Int)
    (snaps : String → Option StoredRateLimitSnapshot)
    (hca : has_credentials a = true) (hcb : has_credentials b = true)
    (hid : slot_identity a ≠ slot_identity b)
    (hw : slot_weight snaps now a.id = slot_weight snaps now b.id)
    (xa xb ca cb : ℚ) :
    next_account
        { cooldowns := [],
          weights := [(slot_identity b, { weight := xb, current := cb }),
                      (slot_identity a, { weight := xa, current := ca })] }
        now [a, b] snaps [slot_identity b, slot_identity a] =
      if cb < ca then
        ({ cooldowns := [],
           weights := [(slot_identity b, { weight := slot_weight snaps now a.id, current := cb + slot_weight snaps now a.id }),
             (slot_identity a, { weight := slot_weight snaps now a.id, current := ca - slot_weight snaps now a.id })] },
         some (candOf snaps now a).selection)
      else
        ({ cooldowns := [],
           weights := [(slot_identity b, { weight := slot_weight snaps now a.id, current := cb - slot_weight snaps now a.id }),
             (slot_identity a, { weight := slot_weight snaps now a.id, current := ca + slot_weight snaps now a.id })] },
         some (candOf snaps now b).selection) := by
  have hf1 : assocFind [(slot_identity a, slot_weight snaps now a.id),
      (slot_identity b, slot_weight snaps now b.id)] (slot_identity b) =
      some (slot_weight snaps now a.id) := by
    rw [assocFind_cons_ne _ _ _ _ hid, assocFind_cons_self, hw]
  have hf2 : assocFind [(slot_identity a, slot_weight snaps now a.id),
      (slot_identity b, slot_weight snaps now b.id)] (slot_identity a) =
      some (slot_weight snaps now a.id) := assocFind_cons_self _ _ _
  have hS : ((([(slot_identity a, slot_weight snaps now a.id),
      (slot_identity b, slot_weight snaps now b.id)]) : List (String × ℚ)).map
        (fun p => p.2)).sum = 2 * slot_weight snaps now a.id := by
    rw [← hw]
    show slot_weight snaps now a.id + (slot_weight snaps now a.id + 0) = _
    ring
  have hWf : ([(slot_identity b, { weight := xb, current := cb }),
      (slot_identity a, { weight := xa, current := ca })] :
        List (String × WeightedState)).filter
      (fun p => ([slot_identity a, slot_identity b].contains p.1)) =
      [(slot_identity b, { weight := xb, current := cb }),
       (slot_identity a, { weight := xa, current := ca })] := by
    simp
  by_cases hc : cb < ca
  · rw [if_pos hc]
    have hsw : swrr_pick
        [(slot_identity b, { weight := xb, current := cb }),
         (slot_identity a, { weight := xa, current := ca })]
        [(slot_identity a, slot_weight snaps now a.id),
         (slot_identity b, slot_weight snaps now b.id)]
        [slot_identity b, slot_identity a] =
        ([(slot_identity b, { weight := slot_weight snaps now a.id, current := cb + slot_weight snaps now a.id }),
          (slot_identity a, { weight := slot_weight snaps now a.id, current := ca - slot_weight snaps now a.id })], some (slot_identity a)) := by
      rw [swrr_pick_two_gen (slot_identity b) (slot_identity a) (Ne.symm hid) xb xa cb ca
        (slot_weight snaps now a.id) (slot_weight snaps now a.id)
        (2 * slot_weight snaps now a.id) _ hf1 hf2 hS _ rfl]
      rw [if_pos (add_lt_add_right hc (slot_weight snaps now a.id))]
      rw [show ca + slot_weight snaps now a.id - 2 * slot_weight snaps now a.id =
        ca - slot_weight snaps now a.id from by ring]
    exact next_account_two a b now snaps _ _ _ a hca hcb hid hWf (Or.inl rfl) hsw
  · rw [if_neg hc]
    have hsw : swrr_pick
        [(slot_identity b, { weight := xb, current := cb }),
         (slot_identity a, { weight := xa, current := ca })]
        [(slot_identity a, slot_weight snaps now a.id),
         (slot_identity b, slot_weight snaps now b.id)]
        [slot_identity b, slot_identity a] =
        ([(slot_identity b, { weight := slot_weight snaps now a.id, current := cb - slot_weight snaps now a.id }),
          (slot_identity a, { weight := slot_weight snaps now a.id, current := ca + slot_weight snaps now a.id })], some (slot_identity b)) := by
      rw [swrr_pick_two_gen (slot_identity b) (slot_identity a) (Ne.symm hid) xb xa cb ca
        (slot_weight snaps now a.id) (slot_weight snaps now a.id)
        (2 * slot_weight snaps now a.id) _ hf1 hf2 hS _ rfl]
      rw [if_neg (fun h => hc (lt_of_add_lt_add_right h))]
      rw [show cb + slot_weight snaps now a.id - 2 * slot_weight snaps now a.id =
        cb - slot_weight snaps now a.id from by ring]
    exact next_account_two a b now snaps _ _ _ b hca hcb hid hWf (Or.inr rfl) hsw

theorem step_BA_ordAB (a b : StoredAccount) (now : Int)
    (snaps : String → Option StoredRateLimitSnapshot)
    (hca : has_credentials a = true) (hcb : has_credentials b = true)
    (hid : slot_identity a ≠ slot_identity b)
    (hw : slot_weight snaps now a.id = slot_weight snaps now b.id)
    (xa xb ca cb : ℚ) :
    next_account
        { cooldowns := [],
          weights := [(slot_identity b, { weight := xb, current := cb }),
                      (slot_identity a, { weight := xa, current := ca })] }
        now [a, b] snaps [slot_identity a, slot_identity b] =
      if ca < cb then
        ({ cooldowns := [],
           weights := [(slot_identity b, { weight := slot_weight snaps now a.id, current := cb - slot_weight snaps now a.id }),
             (slot_identity a, { weight := slot_weight snaps now a.id, current := ca + slot_weight snaps now a.id })] },
         some (candOf snaps now b).selection)
      else
        ({ cooldowns := [],
           weights := [(slot_identity b, { weight := slot_weight snaps now a.id, current := cb + slot_weight snaps now a.id }),
             (slot_identity a, { weight := slot_weight snaps now a.id, current := ca - slot_weight snaps now a.id })] },
         some (candOf snaps now a).selection) := by
  have hf1 : assocFind [(slot_identity a, slot_weight snaps now a.id),
      (slot_identity b, slot_weight snaps now b.id)] (slot_identity a) =
      some (slot_weight snaps now a.id) := assocFind_cons_self _ _ _
  have hf2 : assocFind [(slot_identity a, slot_weight snaps now a.id),
      (slot_identity b, slot_weight snaps now b.id)] (slot_identity b) =
      some (slot_weight snaps now a.id) := by
    rw [assocFind_cons_ne _ _ _ _ hid, assocFind_cons_self, hw]
  have hS : ((([(slot_identity a, slot_weight snaps now a.id),
      (slot_identity b, slot_weight snaps now b.id)]) : List (String × ℚ)).map
        (fun p => p.2)).sum = 2 * slot_weight snaps now a.id := by
    rw [← hw]
    show slot_weight snaps now a.id + (slot_weight snaps now a.id + 0) = _
    ring
  have hWf : ([(slot_identity b, { weight := xb, current := cb }),
      (slot_identity a, { weight := xa, current := ca })] :
        List (String × WeightedState)).filter
      (fun p => ([slot_identity a, slot_identity b].contains p.1)) =
      [(slot_identity b, { weight := xb, current := cb }),
       (slot_identity a, { weight := xa, current := ca })] := by
    simp
  by_cases hc : ca < cb
  · rw [if_pos hc]
    have hsw : swrr_pick
        [(slot_identity b, { weight := xb, current := cb }),
         (slot_identity a, { weight := xa, current := ca })]
        [(slot_identity a, slot_weight snaps now a.id),
         (slot_identity b, slot_weight snaps now b.id)]
        [slot_identity a, slot_identity b] =
        ([(slot_identity b, { weight := slot_weight snaps now a.id, current := cb - slot_weight snaps now a.id }),
          (slot_identity a, { weight := slot_weight snaps now a.id, current := ca + slot_weight snaps now a.id })], some (slot_identity b)) := by
      rw [swrr_pick_two_gen_cross (slot_identity a) (slot_identity b) hid xa xb ca cb
        (slot_weight snaps now a.id) (slot_weight snaps now a.id)
        (2 * slot_weight snaps now a.id) _ hf1 hf2 hS _ rfl]
      rw [if_pos (add_lt_add_right hc (slot_weight snaps now a.id))]
      rw [show cb + slot_weight snaps now a.id - 2 * slot_weight snaps now a.id =
        cb - slot_weight snaps now a.id from by ring]
    exact next_account_two a b now snaps _ _ _ b hca hcb hid hWf (Or.inr rfl) hsw
  · rw [if_neg hc]
    have hsw : swrr_pick
        [(slot_identity b, { weight := xb, current := cb }),
         (slot_identity a, { weight := xa, current := ca })]
        [(slot_identity a, slot_weight snaps now a.id),
         (slot_identity b, slot_weight snaps now b.id)]
        [slot_identity a, slot_identity b] =
        ([(slot_identity b, { weight := slot_weight snaps now a.id, current := cb + slot_weight snaps now a.id }),
          (slot_identity a, { weight := slot_weight snaps now a.id, current := ca - slot_weight snaps now a.id })], some (slot_identity a)) := by
      rw [swrr_pick_two_gen_cross (slot_identity a) (slot_identity b) hid xa xb ca cb
        (slot_weight snaps now a.id) (slot_weight snaps now a.id)
        (2 * slot_weight snaps now a.id) _ hf1 hf2 hS _ rfl]
      rw [if_neg (fun h => hc (lt_of_add_lt_add_right h))]
      rw [show ca + slot_weight snaps now a.id - 2 * slot_weight snaps now a.id =
        ca - slot_weight snaps now a.id from by ring]
    exact next_account_two a b now snaps _ _ _ a hca hcb hid hWf (Or.inl rfl) hsw

theorem step_empty_ordAB (a b : StoredAccount) (now : Int)
    (snaps : String → Option StoredRateLimitSnapshot)
    (hca : has_credentials a = true) (hcb : has_credentials b = true)
    (hid : slot_identity a ≠ slot_identity b)
    (hw : slot_weight snaps now a.id = slot_weight snaps now b.id) :
    next_account { cooldowns := [], weights := [] }
        now [a, b] snaps [slot_identity a, slot_identity b] =
      ({ cooldowns := [],
         weights := [(slot_identity a, { weight := slot_weight snaps now a.id, current := -(slot_weight snaps now a.id) }),
           (slot_identity b, { weight := slot_weight snaps now a.id, current := slot_weight snaps now a.id })] },
       some (candOf snaps now a).selection) := by
  have hf1 : assocFind [(slot_identity a, slot_weight snaps now a.id),
      (slot_identity b, slot_weight snaps now b.id)] (slot_identity a) =
      some (slot_weight snaps now a.id) := assocFind_cons_self _ _ _
  have hf2 : assocFind [(slot_identity a, slot_weight snaps now a.id),
      (slot_identity b, slot_weight snaps now b.id)] (slot_identity b) =
      some (slot_weight snaps now a.id) := by
    rw [assocFind_cons_ne _ _ _ _ hid, assocFind_cons_self, hw]
  have hS : ((([(slot_identity a, slot_weight snaps now a.id),
      (slot_identity b, slot_weight snaps now b.id)]) : List (String × ℚ)).map
        (fun p => p.2)).sum = 2 * slot_weight snaps now a.id := by
    rw [← hw]
    show slot_weight snaps now a.id + (slot_weight snaps now a.id + 0) = _
    ring
  have hsw : swrr_pick ([] : List (String × WeightedState))
      [(slot_identity a, slot_weight snaps now a.id),
       (slot_identity b, slot_weight snaps now b.id)]
      [slot_identity a, slot_identity b] =
      ([(slot_identity a, { weight := slot_weight snaps now a.id, current := -(slot_weight snaps now a.id) }),
        (slot_identity b, { weight := slot_weight snaps now a.id, current := slot_weight snaps now a.id })], some (slot_identity a)) := by
    rw [swrr_pick_two_empty (slot_identity a) (slot_identity b) hid
      (slot_weight snaps now a.id) (slot_weight snaps now a.id)
      (2 * slot_weight snaps now a.id) _ hf1 hf2 hS]
    rw [if_neg (lt_irrefl _)]
    rw [show (0:ℚ) + slot_weight snaps now a.id - 2 * slot_weight snaps now a.id =
      -(slot_weight snaps now a.id) from by ring]
    rw [show (0:ℚ) + slot_weight snaps now a.id = slot_weight snaps now a.id from by ring]
  exact next_account_two a b now snaps _ _ _ a hca hcb hid rfl (Or.inl rfl) hsw

theorem step_empty_ordBA (a b : StoredAccount) (now : Int)
    (snaps : String → Option StoredRateLimitSnapshot)
    (hca : has_credentials a = true) (hcb : has_credentials b = true)
    (hid : slot_identity a ≠ slot_identity b)
    (hw : slot_weight snaps now a.id = slot_weight snaps now b.id) :
    next_account { cooldowns := [], weights := [] }
        now [a, b] snaps [slot_identity b, slot_identity a] =
      ({ cooldowns := [],
         weights := [(slot_identity b, { weight := slot_weight snaps now a.id, current := -(slot_weight snaps now a.id) }),
           (slot_identity a, { weight := slot_weight snaps now a.id, current := slot_weight snaps now a.id })] },
       some (candOf snaps now b).selection) := by
  have hf1 : assocFind [(slot_identity a, slot_weight snaps now a.id),
      (slot_identity b, slot_weight snaps now b.id)] (slot_identity b) =
      some (slot_weight snaps now a.id) := by
    rw [assocFind_cons_ne _ _ _ _ hid, assocFind_cons_self, hw]
  have hf2 : assocFind [(slot_identity a, slot_weight snaps now a.id),
      (slot_identity b, slot_weight snaps now b.id)] (slot_identity a) =
      some (slot_weight snaps now a.id) := assocFind_cons_self _ _ _
  have hS : ((([(slot_identity a, slot_weight snaps now a.id),
      (slot_identity b, slot_weight snaps now b.id)]) : List (String × ℚ)).map
        (fun p => p.2)).sum = 2 * slot_weight snaps now a.id := by
    rw [← hw]
    show slot_weight snaps now a.id + (slot_weight snaps now a.id + 0) = _
    ring
  have hsw : swrr_pick ([] : List (String × WeightedState))
      [(slot_identity a, slot_weight snaps now a.id),
       (slot_identity b, slot_weight snaps now b.id)]
      [slot_identity b, slot_identity a] =
      ([(slot_identity b, { weight := slot_weight snaps now a.id, current := -(slot_weight snaps now a.id) }),
        (slot_identity a, { weight := slot_weight snaps now a.id, current := slot_weight snaps now a.id })], some (slot_identity b)) := by
    rw [swrr_pick_two_empty (slot_identity b) (slot_identity a) (Ne.symm hid)
      (slot_weight snaps now a.id) (slot_weight snaps now a.id)
      (2 * slot_weight snaps now a.id) _ hf1 hf2 hS]
    rw [if_neg (lt_irrefl _)]
    rw [show (0:ℚ) + slot_weight snaps now a.id - 2 * slot_weight snaps now a.id =
      -(slot_weight snaps now a.id) from by ring]
    rw [show (0:ℚ) + slot_weight snaps now a.id = slot_weight snaps now a.id from by ring]
  exact next_account_two a b now snaps _ _ _ b hca hcb hid rfl (Or.inr rfl) hsw

theorem pair_picks (a b : StoredAccount) (now : Int)
    (snaps : String → Option StoredRateLimitSnapshot)
    (hca : has_credentials a = true) (hcb : has_credentials b = true)
    (hid : slot_identity a ≠ slot_identity b)
    (hw : slot_weight snaps now a.id = slot_weight snaps now b.id)
    (st : SchedulerState) (o1 o2 : List String)
    (hst : st = { cooldowns := [], weights := [] } ∨ st = zstateAB a b snaps now ∨
      st = zstateBA a b snaps now)
    (ho1 : o1 = [slot_identity a, slot_identity b] ∨ o1 = [slot_identity b, slot_identity a])
    (ho2 : o2 = [slot_identity a, slot_identity b] ∨ o2 = [slot_identity b, slot_identity a]) :
    ∃ (s1 s2 : AccountSelection),
      (next_account st now [a, b] snaps o1).2 = some s1 ∧
      (next_account (next_account st now [a, b] snaps o1).1 now [a, b] snaps o2).2 = some s2 ∧
      ((next_account (next_account st now [a, b] snaps o1).1 now [a, b] snaps o2).1 =
          zstateAB a b snaps now ∨
       (next_account (next_account st now [a, b] snaps o1).1 now [a, b] snaps o2).1 =
          zstateBA a b snaps now) ∧
      ((s1.account_id = a.id ∧ s2.account_id = b.id) ∨
       (s1.account_id = b.id ∧ s2.account_id = a.id)) := by
  have hW0 : (0:ℚ) < slot_weight snaps now a.id := by
    have h1 : MIN_EFFECTIVE_WEIGHT ≤ slot_weight snaps now a.id := by
      simp only [slot_weight]; exact le_max_right _ _
    have h0 : (0:ℚ) < MIN_EFFECTIVE_WEIGHT := by norm_num [MIN_EFFECTIVE_WEIGHT]
    linarith
  have e1 : -(slot_weight snaps now a.id) + slot_weight snaps now a.id = 0 := by ring
  have e2 : slot_weight snaps now a.id - slot_weight snaps now a.id = 0 := by ring
  have e3 : (0:ℚ) - slot_weight snaps now a.id + slot_weight snaps now a.id = 0 := by ring
  have e4 : (0:ℚ) + slot_weight snaps now a.id - slot_weight snaps now a.id = 0 := by ring
  rcases hst with rfl | rfl | rfl
  · rcases ho1 with rfl | rfl
    · have h1 := step_empty_ordAB a b now snaps hca hcb hid hw
      rcases ho2 with rfl | rfl
      · have h2 := step_AB_ordAB a b now snaps hca hcb hid hw
          (slot_weight snaps now a.id) (slot_weight snaps now a.id)
          (-(slot_weight snaps now a.id)) (slot_weight snaps now a.id)
        rw [if_pos (by linarith)] at h2
        refine ⟨(candOf snaps now a).selection, (candOf snaps now b).selection,
          ?_, ?_, Or.inl ?_, Or.inl ⟨rfl, rfl⟩⟩
        · simp only [h1]
        · simp only [h1, h2]
        · simp only [h1, h2, zstateAB]
          rw [e1, e2]
      · have h2 := step_AB_ordBA a b now snaps hca hcb hid hw
          (slot_weight snaps now a.id) (slot_weight snaps now a.id)
          (-(slot_weight snaps now a.id)) (slot_weight snaps now a.id)
        rw [if_neg (by intro h; linarith)] at h2
        refine ⟨(candOf snaps now a).selection, (candOf snaps now b).selection,
          ?_, ?_, Or.inl ?_, Or.inl ⟨rfl, rfl⟩⟩
        · simp only [h1]
        · simp only [h1, h2]
        · simp only [h1, h2, zstateAB]
          rw [e1, e2]
    · have h1 := step_empty_ordBA a b now snaps hca hcb hid hw
      rcases ho2 with rfl | rfl
      · have h2 := step_BA_ordAB a b now snaps hca hcb hid hw
          (slot_weight snaps now a.id) (slot_weight snaps now a.id)
          (slot_weight snaps now a.id) (-(slot_weight snaps now a.id))
        rw [if_neg (by intro h; linarith)] at h2
        refine ⟨(candOf snaps now b).selection, (candOf snaps now a).selection,
          ?_, ?_, Or.inr ?_, Or.inr ⟨rfl, rfl⟩⟩
        · simp only [h1]
        · simp only [h1, h2]
        · simp only [h1, h2, zstateBA]
          rw [e1, e2]
      · have h2 := step_BA_ordBA a b now snaps hca hcb hid hw
          (slot_weight snaps now a.id) (slot_weight snaps now a.id)
          (slot_weight snaps now a.id) (-(slot_weight snaps now a.id))
        rw [if_pos (by linarith)] at h2
        refine ⟨(candOf snaps now b).selection, (candOf snaps now a).selection,
          ?_, ?_, Or.inr ?_, Or.inr ⟨rfl, rfl⟩⟩
        · simp only [h1]
        · simp only [h1, h2]
        · simp only [h1, h2, zstateBA]
          rw [e1, e2]
  · simp only [zstateAB, zstateBA]
    rcases ho1 with rfl | rfl
    · have h1 := step_AB_ordAB a b now snaps hca hcb hid hw
        (slot_weight snaps now a.id) (slot_weight snaps now a.id) (0:ℚ) (0:ℚ)
      rw [if_neg (lt_irrefl _)] at h1
      rcases ho2 with rfl | rfl
      · have h2 := step_AB_ordAB a b now snaps hca hcb hid hw
          (slot_weight snaps now a.id) (slot_weight snaps now a.id)
          ((0:ℚ) - slot_weight snaps now a.id) ((0:ℚ) + slot_weight snaps now a.id)
        rw [if_pos (by linarith)] at h2
        refine ⟨(candOf snaps now a).selection, (candOf snaps now b).selection,
          ?_, ?_, Or.inl ?_, Or.inl ⟨rfl, rfl⟩⟩
        · simp only [h1]
        · simp only [h1, h2]
        · simp only [h1, h2]
          rw [e3, e4]
      · have h2 := step_AB_ordBA a b now snaps hca hcb hid hw
          (slot_weight snaps now a.id) (slot_weight snaps now a.id)
          ((0:ℚ) - slot_weight snaps now a.id) ((0:ℚ) + slot_weight snaps now a.id)
        rw [if_neg (by intro h; linarith)] at h2
        refine ⟨(candOf snaps now a).selection, (candOf snaps now b).selection,
          ?_, ?_, Or.inl ?_, Or.inl ⟨rfl, rfl⟩⟩
        · simp only [h1]
        · simp only [h1, h2]
        · simp only [h1, h2]
          rw [e3, e4]
    · have h1 := step_AB_ordBA a b now snaps hca hcb hid hw
        (slot_weight snaps now a.id) (slot_weight snaps now a.id) (0:ℚ) (0:ℚ)
      rw [if_neg (lt_irrefl _)] at h1
      rcases ho2 with rfl | rfl
      · have h2 := step_AB_ordAB a b now snaps hca hcb hid hw
          (slot_weight snaps now a.id) (slot_weight snaps now a.id)
          ((0:ℚ) + slot_weight snaps now a.id) ((0:ℚ) - slot_weight snaps now a.id)
        rw [if_neg (by intro h; linarith)] at h2
        refine ⟨(candOf snaps now b).selection, (candOf snaps now a).selection,
          ?_, ?_, Or.inl ?_, Or.inr ⟨rfl, rfl⟩⟩
        · simp only [h1]
        · simp only [h1, h2]
        · simp only [h1, h2]
          rw [e4, e3]
      · have h2 := step_AB_ordBA a b now snaps hca hcb hid hw
          (slot_weight snaps now a.id) (slot_weight snaps now a.id)
          ((0:ℚ) + slot_weight snaps now a.id) ((0:ℚ) - slot_weight snaps now a.id)
        rw [if_pos (by linarith)] at h2
        refine ⟨(candOf snaps now b).selection, (candOf snaps now a).selection,
          ?_, ?_, Or.inl ?_, Or.inr ⟨rfl, rfl⟩⟩
        · simp only [h1]
        · simp only [h1, h2]
        · simp only [h1, h2]
          rw [e4, e3]
  · simp only [zstateAB, zstateBA]
    rcases ho1 with rfl | rfl
    · have h1 := step_BA_ordAB a b now snaps hca hcb hid hw
        (slot_weight snaps now a.id) (slot_weight snaps now a.id) (0:ℚ) (0:ℚ)
      rw [if_neg (lt_irrefl _)] at h1
      rcases ho2 with rfl | rfl
      · have h2 := step_BA_ordAB a b now snaps hca hcb hid hw
          (slot_weight snaps now a.id) (slot_weight snaps now a.id)
          ((0:ℚ) - slot_weight snaps now a.id) ((0:ℚ) + slot_weight snaps now a.id)
        rw [if_pos (by linarith)] at h2
        refine ⟨(candOf snaps now a).selection, (candOf snaps now b).selection,
          ?_, ?_, Or.inr ?_, Or.inl ⟨rfl, rfl⟩⟩
        · simp only [h1]
        · simp only [h1, h2]
        · simp only [h1, h2]
          rw [e4, e3]
      · have h2 := step_BA_ordBA a b now snaps hca hcb hid hw
          (slot_weight snaps now a.id) (slot_weight snaps now a.id)
          ((0:ℚ) - slot_weight snaps now a.id) ((0:ℚ) + slot_weight snaps now a.id)
        rw [if_neg (by intro h; linarith)] at h2
        refine ⟨(candOf snaps now a).selection, (candOf snaps now b).selection,
          ?_, ?_, Or.inr ?_, Or.inl ⟨rfl, rfl⟩⟩
        · simp only [h1]
        · simp only [h1, h2]
        · simp only [h1, h2]
          rw [e4, e3]
    · have h1 := step_BA_ordBA a b now snaps hca hcb hid hw
        (slot_weight snaps now a.id) (slot_weight snaps now a.id) (0:ℚ) (0:ℚ)
      rw [if_neg (lt_irrefl _)] at h1
      rcases ho2 with rfl | rfl
      · have h2 := step_BA_ordAB a b now snaps hca hcb hid hw
          (slot_weight snaps now a.id) (slot_weight snaps now a.id)
          ((0:ℚ) + slot_weight snaps now a.id) ((0:ℚ) - slot_weight snaps now a.id)
        rw [if_neg (by intro h; linarith)] at h2
        refine ⟨(candOf snaps now b).selection, (candOf snaps now a).selection,
          ?_, ?_, Or.inr ?_, Or.inr ⟨rfl, rfl⟩⟩
        · simp only [h1]
        · simp only [h1, h2]
        · simp only [h1, h2]
          rw [e3, e4]
      · have h2 := step_BA_ordBA a b now snaps hca hcb hid hw
          (slot_weight snaps now a.id) (slot_weight snaps now a.id)
          ((0:ℚ) + slot_weight snaps now a.id) ((0:ℚ) - slot_weight snaps now a.id)
        rw [if_pos (by linarith)] at h2
        refine ⟨(candOf snaps now b).selection, (candOf snaps now a).selection,
          ?_, ?_, Or.inr ?_, Or.inr ⟨rfl, rfl⟩⟩
        · simp only [h1]
        · simp only [h1, h2]
        · simp only [h1, h2]
          rw [e3, e4]

theorem run_picks_balanced (a b : StoredAccount) (now : Int)
    (snaps : String → Option StoredRateLimitSnapshot)
    (hca : has_credentials a = true) (hcb : has_credentials b = true)
    (hab : a.id ≠ b.id)
    (hid : slot_identity a ≠ slot_identity b)
    (hw : slot_weight snaps now a.id = slot_weight snaps now b.id) :
    ∀ (N : Nat) (st : SchedulerState) (orders : List (List String)),
      (st = { cooldowns := [], weights := [] } ∨ st = zstateAB a b snaps now ∨
        st = zstateBA a b snaps now) →
      orders.length = 2 * N →
      (∀ o ∈ orders, o = [slot_identity a, slot_identity b] ∨
        o = [slot_identity b, slot_identity a]) →
      (run_picks now [a, b] snaps st orders).2.count (some a.id) = N ∧
      (run_picks now [a, b] snaps st orders).2.count (some b.id) = N := by
  intro N
  induction N with
  | zero =>
    intro st orders hst hlen hord
    have horders : orders = [] := List.length_eq_zero.mp (by omega)
    subst horders
    rw [run_picks_nil]
    exact ⟨rfl, rfl⟩
  | succ n ih =>
    intro st orders hst hlen hord
    rcases orders with _ | ⟨o1, rest1⟩
    · exfalso
      have hzero : (0:Nat) = 2 * (n + 1) := hlen
      omega
    rcases rest1 with _ | ⟨o2, rest2⟩
    · exfalso
      have hone : (1:Nat) = 2 * (n + 1) := hlen
      omega
    have hlen2 : rest2.length = 2 * n := by
      simp only [List.length_cons] at hlen; omega
    have ho1 := hord o1 (List.mem_cons_self _ _)
    have ho2 := hord o2 (List.mem_cons_of_mem _ (List.mem_cons_self _ _))
    have hordr : ∀ o ∈ rest2, o = [slot_identity a, slot_identity b] ∨
        o = [slot_identity b, slot_identity a] :=
      fun o ho => hord o (List.mem_cons_of_mem _ (List.mem_cons_of_mem _ ho))
    obtain ⟨s1, s2, h1, h2, hst2, hsel⟩ :=
      pair_picks a b now snaps hca hcb hid hw st o1 o2 hst ho1 ho2
    rw [run_picks_cons, run_picks_cons, h1, h2]
    rcases hst2 with h3 | h3
    · rw [h3]
      have hih := ih (zstateAB a b snaps now) rest2 (Or.inr (Or.inl rfl)) hlen2 hordr
      rcases hsel with ⟨f1, f2⟩ | ⟨f1, f2⟩ <;> simp only [Option.map_some'] <;>
        rw [f1, f2] <;> refine ⟨?_, ?_⟩ <;>
        simp [List.count_cons, hab, Ne.symm hab, hih.1, hih.2]
    · rw [h3]
      have hih := ih (zstateBA a b snaps now) rest2 (Or.inr (Or.inr rfl)) hlen2 hordr
      rcases hsel with ⟨f1, f2⟩ | ⟨f1, f2⟩ <;> simp only [Option.map_some'] <;>
        rw [f1, f2] <;> refine ⟨?_, ?_⟩ <;>
        simp [List.count_cons, hab, Ne.symm hab, hih.1, hih.2]

/-- C3: over two distinct eligible scheduling identities whose weights are
equal and constant, any 2N consecutive `next_account` calls with no
intervening `record_outcome` (each call walking the per-identity totals map
in either of its two possible iteration orders) select each identity exactly
N times: the smooth weighted round-robin step alternates between the two. -/
theorem swrr_equal_weights_alternate (a b : StoredAccount) (now : Int)
    (snaps : String → Option StoredRateLimitSnapshot) (N : Nat)
    (orders : List (List String))
    (hca : has_credentials a = true) (hcb : has_credentials b = true)
    (hab : a.id ≠ b.id)
    (hid : slot_identity a ≠ slot_identity b)
    (hw : slot_weight snaps now a.id = slot_weight snaps now b.id)
    (hlen : orders.length = 2 * N)
    (hord : ∀ o ∈ orders, o = [slot_identity a, slot_identity b] ∨
      o = [slot_identity b, slot_identity a]) :
    (run_picks now [a, b] snaps { cooldowns := [], weights := [] } orders).2.count
        (some a.id) = N ∧
    (run_picks now [a, b] snaps { cooldowns := [], weights := [] } orders).2.count
        (some b.id) = N :=
  run_picks_balanced a b now snaps hca hcb hab hid hw N
    { cooldowns := [], weights := [] } orders (Or.inl rfl) hlen hord

/-- A fixture: a registered API-key account. -/
def rrAcctA : StoredAccount :=
  { id := "acct-1", mode := AuthMode.apiKey, label := none, openai_api_key := some "k1",
    tokens := none, last_refresh := none, created_at := none, last_used_at := none }

/-- A fixture: a second registered API-key account. -/
def rrAcctB : StoredAccount :=
  { id := "acct-2", mode := AuthMode.apiKey, label := none, openai_api_key := some "k2",
    tokens := none, last_refresh := none, created_at := none, last_used_at := none }

/-- Closed witness for `swrr_equal_weights_alternate`. -/
theorem swrr_equal_weights_alternate_witness :
    (run_picks 0 [rrAcctA, rrAcctB] (fun _ => none) { cooldowns := [], weights := [] }
        [["acct-1", "acct-2"], ["acct-2", "acct-1"]]).2.count (some "acct-1") = 1 ∧
    (run_picks 0 [rrAcctA, rrAcctB] (fun _ => none) { cooldowns := [], weights := [] }
        [["acct-1", "acct-2"], ["acct-2", "acct-1"]]).2.count (some "acct-2") = 1 :=
  swrr_equal_weights_alternate rrAcctA rrAcctB 0 (fun _ => none) 1
    [["acct-1", "acct-2"], ["acct-2", "acct-1"]]
    rfl rfl (by decide) (by decide) rfl rfl (by decide)

end LightCode
